import Mathlib

/-!
Verification of the MSim simulation harness: a shallow embedding of the
argument-validation layer (utils/framework.py), the simulation harness
(simulator.py), the multi-slot spell-trace enhancement engine
(utils/env/spelltrace.py) and the hexa-stat leveling engine
(utils/env/hexastats.py), together with proofs about the behaviour of these
components.  Machine floats of the source are modelled as rationals, Python
ints as integers (or naturals where the source keeps them nonnegative),
randomness as an explicit stream of draws indexed by a cursor, and Python
exceptions as Option/Except values.
-/

namespace MSim

/-! ### Python scalar values and runtime type checks (utils/framework.py) -/

/-- The scalar universe crossing the trial invocation boundary. -/
inductive PyVal : Type
  | int (n : ℤ)
  | float (q : ℚ)
  | str (s : String)
  | bool (b : Bool)
  deriving DecidableEq, Repr

/-- The runtime types an argument declaration can accept. -/
inductive PyType : Type
  | int
  | float
  | str
  | bool
  deriving DecidableEq, Repr

/-- Python `isinstance` restricted to the scalar universe; `bool` is a
subclass of `int` in Python, so a boolean value passes an `int` check. -/
def isinstance : PyVal → PyType → Bool
  | .int _, .int => true
  | .float _, .float => true
  | .str _, .str => true
  | .bool _, .bool => true
  | .bool _, .int => true
  | _, _ => false

/-- Check `isinstance` against a tuple of alternative accepted types. -/
def isinstanceAny (v : PyVal) (tys : List PyType) : Bool :=
  tys.any (isinstance v)

/-- Lookup in an association list modelling a Python dict (first match). -/
def lookupKey {α β : Type} [DecidableEq α] (k : α) : List (α × β) → Option β
  | [] => none
  | e :: rest => if e.1 = k then some e.2 else lookupKey k rest

/-- The per-declared-argument pass of `Framework.checkInvalidArgs`
(utils/framework.py): iterating the declared argument/type table in
declaration order, a declared name absent from the supplied map raises
(`.error`), and otherwise every name whose value fails its type check is
collected, in declaration order. -/
def collectInvalidArgs (argDict : List (String × PyVal)) :
    List (String × List PyType) → Except Unit (List String)
  | [] => .ok []
  | (n, tys) :: rest =>
    match lookupKey n argDict with
    | none => .error ()
    | some v =>
      match collectInvalidArgs argDict rest with
      | .error e => .error e
      | .ok l => .ok (if isinstanceAny v tys then l else n :: l)

/-- The method `Framework.checkInvalidArgs` (utils/framework.py): a supplied map whose
size differs from the declared table raises at once; otherwise the declared
names are traversed, raising on a missing name and collecting wrong-typed
names. -/
def checkInvalidArgs (argTypes : List (String × List PyType))
    (argDict : List (String × PyVal)) : Except Unit (List String) :=
  if argDict.length ≠ argTypes.length then .error ()
  else collectInvalidArgs argDict argTypes

/-! ### The simulation harness (simulator.py)

`MarkovSim.simulate` runs a fixed number of trials through the active
engine.  `MarkovSim.gridSearch` and its cartesian-product generator
`MarkovSim.varDictGen` are exercised by the repository's tests but their
implementation is absent from the sources (the `gridSearch` body in
src/simulator.py is an unimplemented stub), so they are modelled from the
specification below.  The trial engine is abstracted as a state-threading
function from a complete argument map and an engine state to a successor
state and one trial result. -/

/-- The fixed-count trial loop of `MarkovSim.simulate`: the engine is invoked
once per trial on the supplied argument map, threading the engine state, and
the per-trial results are collected in order. -/
def runTrials {V σ ρ : Type} (engine : List (String × V) → σ → σ × ρ)
    (args : List (String × V)) : ℕ → σ → σ × List ρ
  | 0, s => (s, [])
  | n + 1, s =>
    let sr := engine args s
    let rest := runTrials engine args n sr.1
    (rest.1, sr.2 :: rest.2)

/-- Modelled from the spec: `MarkovSim.varDictGen`, the cartesian-product
argument generator, whose implementation is missing from the sources (only
its tests reference it).  Per §4.2: a mapping from argument name to an
ordered candidate sequence goes in; one fully-specified single-value map per
combination comes out, in a fixed enumeration order. -/
def varDictGen {V : Type} : List (String × List V) → List (List (String × V))
  | [] => [[]]
  | (n, vs) :: rest => vs.flatMap fun v => (varDictGen rest).map fun m => (n, v) :: m

/-- The per-coordinate loop of the grid search: for each coordinate map,
merge it with the static arguments into a complete argument map, run the
fixed-count trial loop, and record the batch under the coordinate. -/
def gridSearchGo {V σ ρ : Type} (engine : List (String × V) → σ → σ × ρ)
    (trialCount : ℕ) (staticArgs : List (String × V)) :
    List (List (String × V)) → σ → σ × List (List (String × V) × List ρ)
  | [], s => (s, [])
  | coord :: rest, s =>
    let br := runTrials engine (coord ++ staticArgs) trialCount s
    let tail := gridSearchGo engine trialCount staticArgs rest br.1
    (tail.1, (coord, br.2) :: tail.2)

/-- Modelled from the spec: `MarkovSim.gridSearch`, whose body in
src/simulator.py is an unimplemented stub.  Per §4.2: for every combination
in the cartesian product of the grid arguments' candidate lists, merge with
the static arguments into a complete argument map, run `trialCount` trials,
and record the batch under that combination's coordinate key. -/
def gridSearch {V σ ρ : Type} (engine : List (String × V) → σ → σ × ρ)
    (trialCount : ℕ) (gridArgs : List (String × List V))
    (staticArgs : List (String × V)) (s : σ) :
    σ × List (List (String × V) × List ρ) :=
  gridSearchGo engine trialCount staticArgs (varDictGen gridArgs) s

/-! ### The multi-slot spell-trace enhancement engine (utils/env/spelltrace.py)

`SpellTraceFramework.performTrial` is a while loop over a slot state; each
iteration is one base-consumable attempt (when slots are available) followed
by at most one escalation step (innocence restart, hammer extension, or
clean-slate repair).  Randomness is an explicit stream of rational draws and
the state carries the cursor into it.  The forced-pass sub-procedure and the
main loop are given explicit fuel; `none` models a run that does not finish
within the fuel. -/

/-- The engine configuration: the (translated) arguments of
`SpellTraceFramework.performTrial` plus the constructor's `greedyFinish`
flag (stored as `greedyAfterInno`). -/
structure STConfig : Type where
  eqpSlots : ℕ
  cssCost : ℤ
  cssRate : ℚ
  innoCost : ℤ
  innoRate : ℚ
  innoAfterTol : ℤ
  useHammer : Bool
  hammerCost : ℤ
  hammerRate : ℚ
  scrollCost : ℤ
  scrollRate : ℚ
  guildSaveRate : ℚ
  greedyAfterInno : Bool
  deriving DecidableEq, Repr

/-- The total target: `totSlots = eqpSlots + 2 if useHammer else eqpSlots`. -/
def totSlots (cfg : STConfig) : ℕ :=
  if cfg.useHammer then cfg.eqpSlots + 2 else cfg.eqpSlots

/-- The transient per-trial state of `performTrial`: cost accumulators,
pass/fail counters, the save-event counter, hammer uses, passed/failed slot
counts, available slots, the current (mutable) innocence tolerance, and the
random-stream cursor. -/
structure STState : Type where
  innoCosts : ℤ := 0
  scrollCosts : ℤ := 0
  cssCosts : ℤ := 0
  hammerCosts : ℤ := 0
  fScrolls : ℕ := 0
  fInnos : ℕ := 0
  fCSS : ℕ := 0
  fHammers : ℕ := 0
  pScrolls : ℕ := 0
  pInnos : ℕ := 0
  pCSS : ℕ := 0
  pHammers : ℕ := 0
  numGS : ℕ := 0
  eqpHammers : ℕ := 0
  curPassed : ℕ := 0
  curFailed : ℕ := 0
  availSlots : ℕ := 0
  innoTol : ℤ := 0
  rngIx : ℕ := 0
  deriving DecidableEq, Repr

/-- The state as initialised at the top of `performTrial`: all counters zero,
`availSlots = eqpSlots` and the tolerance taken from the arguments. -/
def stInit (cfg : STConfig) : STState :=
  { availSlots := cfg.eqpSlots, innoTol := cfg.innoAfterTol }

/-- The nested `resetState` closure of `performTrial`: restores hammer uses,
passed/failed counts and available slots to the initial configuration.  The
innocence tolerance is (deliberately) not restored. -/
def resetState (cfg : STConfig) (s : STState) : STState :=
  { s with eqpHammers := 0, curPassed := 0, curFailed := 0,
           availSlots := cfg.eqpSlots }

/-- The base-consumable attempt at the top of each loop iteration (the
`if availSlots > 0` block of `performTrial`): one draw decides the scroll,
the cost is charged unconditionally, and on failure a second draw decides
the guild save. -/
def scrollPhase (cfg : STConfig) (stream : ℕ → ℚ) (s : STState) : STState :=
  if 0 < s.availSlots then
    if stream s.rngIx ≤ cfg.scrollRate then
      { s with rngIx := s.rngIx + 1,
               scrollCosts := s.scrollCosts + cfg.scrollCost,
               availSlots := s.availSlots - 1,
               pScrolls := s.pScrolls + 1,
               curPassed := s.curPassed + 1 }
    else if stream (s.rngIx + 1) < cfg.guildSaveRate then
      { s with rngIx := s.rngIx + 2,
               scrollCosts := s.scrollCosts + cfg.scrollCost,
               numGS := s.numGS + 1,
               fScrolls := s.fScrolls + 1 }
    else
      { s with rngIx := s.rngIx + 2,
               scrollCosts := s.scrollCosts + cfg.scrollCost,
               fScrolls := s.fScrolls + 1,
               availSlots := s.availSlots - 1,
               curFailed := s.curFailed + 1 }
  else s

/-- The method `SpellTraceFramework.simulateForcePassedScroll`: draw until a draw is no
longer above the pass rate, charging the cost once per failed draw plus once
for the final success; returns (total cost, number of failures, next stream
cursor).  `fuel` bounds the number of draws; `none` models a run that keeps
failing past the fuel. -/
def simulateForcePassedScroll (stream : ℕ → ℚ) (rate : ℚ) (cost : ℤ) :
    ℕ → ℕ → Option (ℤ × ℕ × ℕ)
  | 0, _ => none
  | fuel + 1, ix =>
    if rate < stream ix then
      match simulateForcePassedScroll stream rate cost fuel (ix + 1) with
      | none => none
      | some r => some (r.1 + cost, r.2.1 + 1, r.2.2)
    else
      some (cost, 0, ix + 1)

/-- The escalation step of each loop iteration of `performTrial`, first
matching rule wins: innocence restart when the consecutive-failure count
exceeds the tolerance; otherwise a hammer extension when enabled, no slot is
available and fewer than two hammers were used (raising the tolerance when
the greedy flag is set); otherwise a clean-slate repair when no slot is
available and some slot has failed. -/
def escalatePhase (cfg : STConfig) (stream : ℕ → ℚ) (fuel : ℕ)
    (s : STState) : Option STState :=
  if s.innoTol < (s.curFailed : ℤ) then
    match simulateForcePassedScroll stream cfg.innoRate cfg.innoCost fuel s.rngIx with
    | none => none
    | some r =>
      some (resetState cfg
        { s with innoCosts := s.innoCosts + r.1, fInnos := s.fInnos + r.2.1,
                 pInnos := s.pInnos + 1, rngIx := r.2.2 })
  else if cfg.useHammer = true ∧ s.availSlots = 0 ∧ s.eqpHammers < 2 then
    if stream s.rngIx < cfg.hammerRate then
      some { s with eqpHammers := s.eqpHammers + 1,
                    hammerCosts := s.hammerCosts + cfg.hammerCost,
                    pHammers := s.pHammers + 1,
                    availSlots := s.availSlots + 1,
                    innoTol := if cfg.greedyAfterInno then s.innoTol + 1 else s.innoTol,
                    rngIx := s.rngIx + 1 }
    else
      some { s with eqpHammers := s.eqpHammers + 1,
                    hammerCosts := s.hammerCosts + cfg.hammerCost,
                    fHammers := s.fHammers + 1,
                    curFailed := s.curFailed + 1,
                    innoTol := if cfg.greedyAfterInno then s.innoTol + 1 else s.innoTol,
                    rngIx := s.rngIx + 1 }
  else if s.availSlots = 0 ∧ 0 < s.curFailed then
    match simulateForcePassedScroll stream cfg.cssRate cfg.cssCost fuel s.rngIx with
    | none => none
    | some r =>
      some { s with cssCosts := s.cssCosts + r.1, fCSS := s.fCSS + r.2.1,
                    pCSS := s.pCSS + 1, availSlots := s.availSlots + 1,
                    curFailed := s.curFailed - 1, rngIx := r.2.2 }
  else some s

/-- The `while curPassed < totSlots` loop of `performTrial`, with an explicit
iteration budget.  Each iteration is one base attempt followed by one
escalation step. -/
def stRun (cfg : STConfig) (stream : ℕ → ℚ) (fuel : ℕ) :
    ℕ → STState → Option STState
  | 0, s => if s.curPassed < totSlots cfg then none else some s
  | n + 1, s =>
    if s.curPassed < totSlots cfg then
      match escalatePhase cfg stream fuel (scrollPhase cfg stream s) with
      | none => none
      | some s2 => stRun cfg stream fuel n s2
    else some s

/-- The metric record returned by `SpellTraceFramework.performTrial`. -/
structure STResult : Type where
  totalTraceCost : ℤ
  innoTraceCost : ℤ
  scrollTraceCost : ℤ
  cssTraceCost : ℤ
  hammerTraceCost : ℤ
  numFailedScrolls : ℕ
  numFailedInnos : ℕ
  numFailedCSS : ℕ
  numFailedHammers : ℕ
  numPassedScrolls : ℕ
  numPassedInnos : ℕ
  numPassedCSS : ℕ
  numPassedHammers : ℕ
  numGuildSaves : ℕ
  deriving DecidableEq, Repr

/-- The return dictionary assembled at the end of `performTrial`. -/
def stResult (s : STState) : STResult :=
  { totalTraceCost := s.innoCosts + s.cssCosts + s.scrollCosts + s.hammerCosts,
    innoTraceCost := s.innoCosts,
    scrollTraceCost := s.scrollCosts,
    cssTraceCost := s.cssCosts,
    hammerTraceCost := s.hammerCosts,
    numFailedScrolls := s.fScrolls,
    numFailedInnos := s.fInnos,
    numFailedCSS := s.fCSS,
    numFailedHammers := s.fHammers,
    numPassedScrolls := s.pScrolls,
    numPassedInnos := s.pInnos,
    numPassedCSS := s.pCSS,
    numPassedHammers := s.pHammers,
    numGuildSaves := s.numGS }

/-- The method `SpellTraceFramework.performTrial`: run the loop from the initial state
and assemble the metric record; `fuel` bounds both the loop iterations and
each forced-pass sub-run. -/
def stPerformTrial (cfg : STConfig) (stream : ℕ → ℚ) (fuel : ℕ) :
    Option STResult :=
  (stRun cfg stream fuel fuel (stInit cfg)).map stResult

/-- The corrected slot-accounting invariant of the spell-trace engine (the
quantity the loop actually preserves between operations): available slots
plus passed slots plus the consecutive-failure count equals the item's slot
count plus the hammer uses since the last restart. -/
def slotInv (cfg : STConfig) (s : STState) : Prop :=
  s.availSlots + s.curPassed + s.curFailed = cfg.eqpSlots + s.eqpHammers

/-- A concrete all-success configuration with the extension mechanic enabled
(one slot, base cost 200, extension cost 1), used to evaluate the engine at
specific inputs. -/
def hammerOneCfg : STConfig :=
  { eqpSlots := 1, cssCost := 0, cssRate := 1, innoCost := 0, innoRate := 1,
    innoAfterTol := 0, useHammer := true, hammerCost := 1, hammerRate := 1,
    scrollCost := 200, scrollRate := 1, guildSaveRate := 0, greedyAfterInno := true }

/-! ### The hexa-stat leveling engine (utils/env/hexastats.py)

`HexaStatCore` is a four-field level record with a randomized level-up and a
guarded reset; `HexaStatFramework.performTrial` validates its arguments,
imports or synthesizes a policy once per configuration, and then loops
enhance/reset decisions over a fresh core.  Python exceptions are modelled
as error values; the pickle file system is a partial map from paths to
deserialized values. -/

/-- The success-probability table `P_SUCC_VALS`, indexed by the current
primary stat level (the Python list's index-0 entry is `None` and is never
read at the levels the engine reaches; it is modelled as 0). -/
def P_SUCC_VALS (n : ℕ) : ℚ :=
  [0, 35/100, 35/100, 20/100, 20/100, 20/100, 20/100, 15/100, 10/100, 5/100, 0].getD n 0

/-- The sol-erda-fragment cost table `PB_ERDA_FRAG_COST_VALS`, indexed by the
pre-increment primary stat level (index 0 is the never-read `None`). -/
def PB_ERDA_FRAG_COST_VALS (n : ℕ) : ℤ :=
  [0, 10, 10, 20, 20, 20, 20, 30, 40, 50, 50].getD n 0

/-- The sol-erda cost table `PB_ERDA_COST_VALS` (index 0 is the never-read
`None`). -/
def PB_ERDA_COST_VALS (n : ℕ) : ℤ :=
  [0, 5, 5, 5, 5, 5, 5, 5, 5, 5, 5].getD n 0

/-- The hexa stat core: overall node level and the three stat levels, all
initialised to 1. -/
structure HexaStatCore : Type where
  nodeLevel : ℕ := 1
  s1 : ℕ := 1
  s2 : ℕ := 1
  s3 : ℕ := 1
  deriving DecidableEq, Repr

/-- The method `HexaStatCore.updateInd`: the index of the stat a draw levels.  `none`
models the RuntimeError on a draw outside [0, 1).  Order of the checks as in
the source: primary success first, then the three secondary-stat cases, and
finally the even split of the residual mass. -/
def updateInd (c : HexaStatCore) (u : ℚ) : Option ℕ :=
  if ¬(0 ≤ u ∧ u < 1) then none
  else if c.s1 < 10 ∧ u < P_SUCC_VALS c.s1 then some 0
  else if c.s2 = 10 ∧ c.s3 = 10 then some 0
  else if c.s2 = 10 then some 2
  else if c.s3 = 10 then some 1
  else if 0 ≤ u - P_SUCC_VALS c.s1 ∧ u - P_SUCC_VALS c.s1 < (1 - P_SUCC_VALS c.s1) / 2
    then some 1
  else some 2

/-- Increment the stat selected by `updateInd`. -/
def bumpStat (c : HexaStatCore) : ℕ → HexaStatCore
  | 0 => { c with s1 := c.s1 + 1 }
  | 1 => { c with s2 := c.s2 + 1 }
  | _ => { c with s3 := c.s3 + 1 }

/-- The method `HexaStatCore.levelNode`: refuse at the level cap, consume one draw,
read the (sol erda, fragment) cost at the pre-increment primary level,
increment the selected stat and the node level.  `none` models the
RuntimeError at the cap or on an invalid draw. -/
def levelNode (c : HexaStatCore) (u : ℚ) : Option (HexaStatCore × ℤ × ℤ) :=
  if c.nodeLevel = 20 then none
  else
    match updateInd c u with
    | none => none
    | some i =>
      some ({ bumpStat c i with nodeLevel := c.nodeLevel + 1 },
            PB_ERDA_COST_VALS c.s1, PB_ERDA_FRAG_COST_VALS c.s1)

/-- The method `HexaStatCore.resetNode`: refuse under the reset threshold of 10,
otherwise return node level and all stat levels to 1. -/
def resetNode (c : HexaStatCore) : Option HexaStatCore :=
  if c.nodeLevel < 10 then none
  else some { nodeLevel := 1, s1 := 1, s2 := 1, s3 := 1 }

/-- Iterated `levelNode` from a core and a stream cursor: one draw per
level-up. -/
def levelIter (stream : ℕ → ℚ) : ℕ → HexaStatCore × ℕ → Option (HexaStatCore × ℕ)
  | 0, p => some p
  | k + 1, p =>
    match levelNode p.1 (stream p.2) with
    | none => none
    | some r => levelIter stream k (r.1, p.2 + 1)

/-- Well-formedness of a reachable core state: stat levels within [1, 10],
node level within [1, 20], and the accounting identity
`s1 + s2 + s3 = nodeLevel + 2` (equivalently, sum of stat levels minus 3
equals node level minus 1). -/
def coreWF (c : HexaStatCore) : Prop :=
  1 ≤ c.s1 ∧ c.s1 ≤ 10 ∧ 1 ≤ c.s2 ∧ c.s2 ≤ 10 ∧ 1 ≤ c.s3 ∧ c.s3 ≤ 10 ∧
  c.s1 + c.s2 + c.s3 = c.nodeLevel + 2 ∧ 1 ≤ c.nodeLevel ∧ c.nodeLevel ≤ 20

/-- A policy table: association list from (node level, primary stat level)
to the reset decision; unmapped states default to `false` via `polLookup`
(the Python side is a `defaultdict(lambda: False)`). -/
abbrev Policy := List ((ℕ × ℕ) × Bool)

/-- Policy lookup with the implicit `False` default. -/
def polLookup (p : Policy) (k : ℕ × ℕ) : Bool :=
  (lookupKey k p).getD false

/-- The method `HexaStatFramework.updatePolicyTarget`: force a reset at node level 20
for every primary level strictly below the target; `aux n` installs the
entries for primary levels 1..n. -/
def updatePolicyTargetAux (p : Policy) : ℕ → Policy
  | 0 => p
  | n + 1 => ((20, n + 1), true) :: updatePolicyTargetAux p n

/-- The wrapper `updatePolicyTarget` over an integer target: Python's
`range(1, targetLevel)` is empty for targets at most 1. -/
def updatePolicyTarget (p : Policy) (target : ℤ) : Policy :=
  updatePolicyTargetAux p (target - 1).toNat

/-- A deserialized pickle value: either mapping-shaped (a policy dict) or
not.  The file system is a partial map from paths to stored values; a
missing path models `FileNotFoundError`. -/
inductive PickleVal : Type
  | dict (p : Policy)
  | nondict
  deriving DecidableEq, Repr

/-- A pickle file system. -/
abbrev FileSys := String → Option PickleVal

/-- The Python exceptions the hexa-stat engine can raise: `ValueError` for
the argument preconditions of `performTrial`, `RuntimeError` for
reset-too-early, level-cap, invalid draws and the re-raised missing-file
error, and `TypeError` for a non-mapping deserialized policy. -/
inductive HexaErr : Type
  | valueError
  | runtimeError
  | typeError
  deriving DecidableEq, Repr

/-- The method `HexaStatFramework.attemptPolicyImport`: a missing path raises
`FileNotFoundError`, re-raised as a bare RuntimeError; a present but
non-mapping value raises `TypeError`; a mapping-shaped value becomes the
policy. -/
def attemptPolicyImport (fs : FileSys) (path : String) : Except HexaErr Policy :=
  match fs path with
  | none => .error .runtimeError
  | some (.dict p) => .ok p
  | some .nondict => .error .typeError

/-- The persistent fields of a `HexaStatFramework` instance: the
policy-cache flags, the policy table, and the random-stream cursor. -/
structure HexaStatFramework : Type where
  loadedPolicy : Bool := false
  lastPolicyDir : String := ""
  policy : Policy := []
  rngIx : ℕ := 0
  deriving DecidableEq, Repr

/-- The policy-import step of `HexaStatFramework.performTrial`: it runs only
when no policy has been loaded yet or the supplied path differs from the
previous call's; the cache flags are set before the import is attempted;
only the RuntimeError of a missing file is caught (falling back to the
synthesized default policy for the target); any other load error
propagates. -/
def policyPhase (fs : FileSys) (target : ℤ) (path : String)
    (st : HexaStatFramework) : HexaStatFramework × Option HexaErr :=
  if st.loadedPolicy = false ∨ st.lastPolicyDir ≠ path then
    let st1 := { st with loadedPolicy := true, lastPolicyDir := path }
    match attemptPolicyImport fs path with
    | .ok p => ({ st1 with policy := p }, none)
    | .error .runtimeError =>
      ({ st1 with policy := updatePolicyTarget st1.policy target }, none)
    | .error e => (st1, some e)
  else (st, none)

/-- The transient loop state of `performTrial`: the fresh core, the stream
cursor, and the cost/reset/enhancement accumulators. -/
structure HexaLoopState : Type where
  core : HexaStatCore
  rngIx : ℕ
  totCost : ℤ
  totResets : ℕ
  numEnhances : ℕ
  deriving DecidableEq, Repr

/-- The `while` loop of `HexaStatFramework.performTrial` with an explicit
iteration budget: continue while the node is below the cap or the primary
stat is below the target; stop when a finite budget would be exceeded by the
next fragment cost; otherwise reset or enhance as the policy directs.  The
result pairs the loop state at exit with `some e` when a Python exception
propagates (`none` in the second component is a normal return; an outer
`none` is exhausted fuel). -/
def hexaLoop (stream : ℕ → ℚ) (policy : Policy) (target : ℤ)
    (erdaFragLim : ℤ) (ignoreLims : Bool) :
    ℕ → HexaLoopState → Option (HexaLoopState × Option HexaErr)
  | 0, _ => none
  | fuel + 1, ls =>
    if ls.core.nodeLevel ≠ 20 ∨ (ls.core.s1 : ℤ) < target then
      if ignoreLims = false ∧ erdaFragLim < ls.totCost + PB_ERDA_FRAG_COST_VALS ls.core.s1 then
        some (ls, none)
      else if polLookup policy (ls.core.nodeLevel, ls.core.s1) = true then
        match resetNode ls.core with
        | none => some ({ ls with totResets := ls.totResets + 1 }, some .runtimeError)
        | some c2 =>
          hexaLoop stream policy target erdaFragLim ignoreLims fuel
            { ls with core := c2, totResets := ls.totResets + 1 }
      else
        match levelNode ls.core (stream ls.rngIx) with
        | none => some (ls, some .runtimeError)
        | some r =>
          hexaLoop stream policy target erdaFragLim ignoreLims fuel
            { core := r.1, rngIx := ls.rngIx + 1, totCost := ls.totCost + r.2.2,
              totResets := ls.totResets, numEnhances := ls.numEnhances + 1 }
    else some (ls, none)

/-- The metric record returned by `HexaStatFramework.performTrial`. -/
structure HexaResult : Type where
  totalFragCost : ℤ
  totalEnhances : ℕ
  primaryLevel : ℕ
  secondaryLevel : ℕ
  thirdLevel : ℕ
  numResets : ℕ
  deriving DecidableEq, Repr

/-- The method `HexaStatFramework.performTrial`: validate the target level and the
fragment budget, run the policy-import step, then loop over a fresh core.
The returned pair is the engine state after the call together with `none`
when the loop fuel ran out, `some (.error e)` when a Python exception
propagates out of the call, and `some (.ok r)` on a normal return. -/
def performTrial (fs : FileSys) (stream : ℕ → ℚ) (fuel : ℕ) (target : ℤ)
    (path : String) (erdaFragLim : ℤ) (st : HexaStatFramework) :
    HexaStatFramework × Option (Except HexaErr HexaResult) :=
  if 10 < target then (st, some (.error .valueError))
  else if erdaFragLim < 0 then (st, some (.error .valueError))
  else
    match policyPhase fs target path st with
    | (st1, some e) => (st1, some (.error e))
    | (st1, none) =>
      match hexaLoop stream st1.policy target erdaFragLim (decide (erdaFragLim = 0)) fuel
          { core := {}, rngIx := st.rngIx, totCost := 0, totResets := 0,
            numEnhances := 0 } with
      | none => (st1, none)
      | some (ls, some e) => ({ st1 with rngIx := ls.rngIx }, some (.error e))
      | some (ls, none) =>
        ({ st1 with rngIx := ls.rngIx },
         some (.ok { totalFragCost := ls.totCost, totalEnhances := ls.numEnhances,
                     primaryLevel := ls.core.s1, secondaryLevel := ls.core.s2,
                     thirdLevel := ls.core.s3, numResets := ls.totResets }))

/-- The target-selection rule exactly as the specification words it (written
from the spec, to be compared against `updateInd`): (1) primary on a
successful draw below the cap; (2) primary when both secondaries are maxed;
(3) the other secondary when exactly one is maxed; (4) otherwise the first
secondary exactly when the residual draw falls in the first half of the
remaining mass. -/
def specSelect (c : HexaStatCore) (u : ℚ) : ℕ :=
  if c.s1 < 10 ∧ u < P_SUCC_VALS c.s1 then 0
  else if c.s2 = 10 ∧ c.s3 = 10 then 0
  else if c.s2 = 10 ∧ c.s3 ≠ 10 then 2
  else if c.s3 = 10 ∧ c.s2 ≠ 10 then 1
  else if 0 ≤ u - P_SUCC_VALS c.s1 ∧ u - P_SUCC_VALS c.s1 < (1 - P_SUCC_VALS c.s1) / 2
    then 1
  else 2

/-! ## Lemmas about the harness (grid search, C1) -/

theorem runTrials_length {V σ ρ : Type} (engine : List (String × V) → σ → σ × ρ)
    (args : List (String × V)) :
    ∀ (t : ℕ) (s : σ), (runTrials engine args t s).2.length = t := by
  intro t
  induction t with
  | zero => intro s; rfl
  | succ n ih => intro s; simp [runTrials, ih]

theorem runTrials_count {V ρ : Type} (f : List (String × V) → ℕ → ρ)
    (args : List (String × V)) :
    ∀ (t n : ℕ), (runTrials (fun a k => (k + 1, f a k)) args t n).1 = n + t := by
  intro t
  induction t with
  | zero => intro n; rfl
  | succ m ih => intro n; simp [runTrials, ih]; omega

theorem gridSearchGo_keys {V σ ρ : Type} (engine : List (String × V) → σ → σ × ρ)
    (t : ℕ) (staticArgs : List (String × V)) :
    ∀ (coords : List (List (String × V))) (s : σ),
      (gridSearchGo engine t staticArgs coords s).2.map Prod.fst = coords := by
  intro coords
  induction coords with
  | nil => intro s; rfl
  | cons c rest ih => intro s; simp [gridSearchGo, ih]

theorem gridSearchGo_batches {V σ ρ : Type} (engine : List (String × V) → σ → σ × ρ)
    (t : ℕ) (staticArgs : List (String × V)) :
    ∀ (coords : List (List (String × V))) (s : σ),
      ∀ b ∈ (gridSearchGo engine t staticArgs coords s).2, b.2.length = t := by
  intro coords
  induction coords with
  | nil => intro s b hb; simp [gridSearchGo] at hb
  | cons c rest ih =>
    intro s b hb
    simp only [gridSearchGo, List.mem_cons] at hb
    rcases hb with hb | hb
    · subst hb; exact runTrials_length engine (c ++ staticArgs) t s
    · exact ih _ b hb

theorem gridSearchGo_count {V ρ : Type} (f : List (String × V) → ℕ → ρ)
    (t : ℕ) (staticArgs : List (String × V)) :
    ∀ (coords : List (List (String × V))) (n : ℕ),
      (gridSearchGo (fun a k => (k + 1, f a k)) t staticArgs coords n).1
        = n + t * coords.length := by
  intro coords
  induction coords with
  | nil => intro n; simp [gridSearchGo]
  | cons c rest ih =>
    intro n
    simp [gridSearchGo, ih, runTrials_count f (c ++ staticArgs) t n]
    ring

theorem sum_map_const_nat {α : Type} (l : List α) (c : ℕ) :
    (l.map fun _ => c).sum = l.length * c := by
  induction l with
  | nil => simp
  | cons a rest ih => simp [ih, Nat.succ_mul, Nat.add_comm]

theorem varDictGen_length {V : Type} :
    ∀ g : List (String × List V),
      (varDictGen g).length = (g.map fun p => p.2.length).prod := by
  intro g
  induction g with
  | nil => simp [varDictGen]
  | cons hd tl ih =>
    obtain ⟨n, vs⟩ := hd
    simp only [varDictGen, List.length_flatMap, List.map_map, List.map_cons, List.prod_cons]
    have hconst : (List.map (List.length ∘ fun v => List.map (fun m => (n, v) :: m) (varDictGen tl)) vs)
        = List.map (fun _ => (varDictGen tl).length) vs := by
      simp [Function.comp_def]
    rw [hconst, sum_map_const_nat, ih, mul_comm]

theorem varDictGen_nodup {V : Type} :
    ∀ g : List (String × List V), (∀ p ∈ g, p.2.Nodup) → (varDictGen g).Nodup := by
  intro g
  induction g with
  | nil => intro _; simp [varDictGen]
  | cons hd tl ih =>
    obtain ⟨n, vs⟩ := hd
    intro h
    have hvs : vs.Nodup := h (n, vs) (List.mem_cons_self _ _)
    have htl : (varDictGen tl).Nodup := ih fun p hp => h p (List.mem_cons_of_mem _ hp)
    simp only [varDictGen]
    refine List.nodup_flatMap.2 ⟨fun v _ => ?_, ?_⟩
    · refine htl.map ?_
      intro m m' hmm
      injection hmm with h1 h2
    · refine hvs.imp ?_
      intro v w hvw
      refine List.disjoint_left.2 ?_
      intro m hm hm'
      simp only [List.mem_map] at hm hm'
      obtain ⟨m1, _, rfl⟩ := hm
      obtain ⟨m2, _, heq⟩ := hm'
      injection heq with hpair htail
      injection hpair with hfst hsnd
      exact hvw hsnd.symm

theorem varDictGen_mem {V : Type} :
    ∀ (g : List (String × List V)) (m : List (String × V)),
      m ∈ varDictGen g ↔ List.Forall₂ (fun p e => e.1 = p.1 ∧ e.2 ∈ p.2) g m := by
  intro g
  induction g with
  | nil =>
    intro m
    simp [varDictGen, List.forall₂_nil_left_iff]
  | cons hd tl ih =>
    obtain ⟨n, vs⟩ := hd
    intro m
    constructor
    · intro hm
      simp only [varDictGen, List.mem_flatMap, List.mem_map] at hm
      obtain ⟨v, hv, m', hm', rfl⟩ := hm
      exact List.Forall₂.cons ⟨rfl, hv⟩ ((ih m').1 hm')
    · intro hf
      rcases List.forall₂_cons_left_iff.1 hf with ⟨e, m', ⟨he1, he2⟩, hf', rfl⟩
      simp only [varDictGen, List.mem_flatMap, List.mem_map]
      refine ⟨e.2, he2, m', (ih m').2 hf', ?_⟩
      obtain ⟨e1, e2⟩ := e
      simp only at he1
      rw [he1]

/-- C1: for every trial count, every grid-argument table with duplicate-free
candidate lists, and every static-argument map, the (spec-modelled) grid
search returns exactly the cartesian product of coordinates as keys —
`∏ cᵢ` of them, pairwise distinct and exhaustive, each traversed once — each
key holding a batch of exactly `trialCount` trial results, and an engine
that counts its invocations is invoked exactly `trialCount · ∏ cᵢ` times. -/
theorem gridSearch_contract {V σ ρ : Type} (engine : List (String × V) → σ → σ × ρ)
    (trialCount : ℕ) (gridArgs : List (String × List V))
    (staticArgs : List (String × V)) (s : σ)
    (f : List (String × V) → ℕ → ρ) (n₀ : ℕ)
    (hnd : ∀ p ∈ gridArgs, p.2.Nodup) :
    ((gridSearch engine trialCount gridArgs staticArgs s).2.map Prod.fst
        = varDictGen gridArgs) ∧
    ((gridSearch engine trialCount gridArgs staticArgs s).2.length
        = (gridArgs.map fun p => p.2.length).prod) ∧
    ((gridSearch engine trialCount gridArgs staticArgs s).2.map Prod.fst).Nodup ∧
    (∀ b ∈ (gridSearch engine trialCount gridArgs staticArgs s).2,
        b.2.length = trialCount) ∧
    (∀ m, m ∈ (gridSearch engine trialCount gridArgs staticArgs s).2.map Prod.fst ↔
        List.Forall₂ (fun p e => e.1 = p.1 ∧ e.2 ∈ p.2) gridArgs m) ∧
    ((gridSearch (fun args k => (k + 1, f args k)) trialCount gridArgs staticArgs n₀).1
        = n₀ + trialCount * (gridArgs.map fun p => p.2.length).prod) := by
  have hkeys := gridSearchGo_keys engine trialCount staticArgs (varDictGen gridArgs) s
  refine ⟨hkeys, ?_, ?_, ?_, ?_, ?_⟩
  · have := congrArg List.length hkeys
    simpa [varDictGen_length] using this
  · rw [show (gridSearch engine trialCount gridArgs staticArgs s).2.map Prod.fst
        = varDictGen gridArgs from hkeys]
    exact varDictGen_nodup gridArgs hnd
  · exact gridSearchGo_batches engine trialCount staticArgs (varDictGen gridArgs) s
  · intro m
    rw [show (gridSearch engine trialCount gridArgs staticArgs s).2.map Prod.fst
        = varDictGen gridArgs from hkeys]
    exact varDictGen_mem gridArgs m
  · rw [show (gridSearch (fun args k => (k + 1, f args k)) trialCount gridArgs staticArgs n₀).1
        = n₀ + trialCount * (varDictGen gridArgs).length from
        gridSearchGo_count f trialCount staticArgs (varDictGen gridArgs) n₀,
      varDictGen_length]

/-- Witness for C1: the concrete 2×3 grid with one static argument, 2 trials
per coordinate: 6 coordinate buckets and 12 engine invocations. -/
theorem gridSearch_contract_witness :
    ((gridSearch (fun (_ : List (String × ℕ)) (k : ℕ) => (k + 1, k)) 2
        [("a", [1, 2]), ("b", [3, 4, 5])] [("c", 9)] 0).2.length = 6) ∧
    ((gridSearch (fun (_ : List (String × ℕ)) (k : ℕ) => (k + 1, k)) 2
        [("a", [1, 2]), ("b", [3, 4, 5])] [("c", 9)] 0).1 = 12) := by
  have h := gridSearch_contract (fun (_ : List (String × ℕ)) (k : ℕ) => (k + 1, k)) 2
    [("a", [1, 2]), ("b", [3, 4, 5])] [("c", 9)] 0 (fun _ k => k) 0 (by decide)
  exact ⟨by simpa using h.2.1, by simpa using h.2.2.2.2.2⟩

/-! ## Lemmas about argument validation (C8) -/

theorem lookupKey_eq_none_iff {α β : Type} [DecidableEq α] (k : α) :
    ∀ l : List (α × β), lookupKey k l = none ↔ k ∉ l.map Prod.fst := by
  intro l
  induction l with
  | nil => simp [lookupKey]
  | cons e rest ih =>
    by_cases h : e.1 = k
    · simp [lookupKey, h]
    · simp only [lookupKey]
      rw [if_neg h, ih]
      simp only [List.map_cons, List.mem_cons]
      constructor
      · intro hnm hor
        rcases hor with hk | hk
        · exact h hk.symm
        · exact hnm hk
      · intro hno hm
        exact hno (Or.inr hm)

theorem lookupKey_exists_of_mem {α β : Type} [DecidableEq α] {k : α}
    {l : List (α × β)} (h : k ∈ l.map Prod.fst) : ∃ v, lookupKey k l = some v := by
  rcases ho : lookupKey k l with _ | v
  · exact absurd ((lookupKey_eq_none_iff k l).1 ho) (not_not.2 h)
  · exact ⟨v, rfl⟩

theorem collectInvalidArgs_error_of_missing (argDict : List (String × PyVal)) :
    ∀ argTypes : List (String × List PyType),
      (∃ e ∈ argTypes, lookupKey e.1 argDict = none) →
      collectInvalidArgs argDict argTypes = .error () := by
  intro argTypes
  induction argTypes with
  | nil => rintro ⟨e, he, _⟩; simp at he
  | cons hd tl ih =>
    obtain ⟨n, tys⟩ := hd
    rintro ⟨e, he, hnone⟩
    rcases List.mem_cons.1 he with rfl | he'
    · simp only [collectInvalidArgs]
      rw [hnone]
    · rcases h2 : lookupKey n argDict with _ | v
      · simp only [collectInvalidArgs]
        rw [h2]
      · have := ih ⟨e, he', hnone⟩
        simp only [collectInvalidArgs]
        rw [h2, this]

theorem collectInvalidArgs_ok (argDict : List (String × PyVal)) :
    ∀ argTypes : List (String × List PyType),
      (argTypes.map Prod.fst).Nodup →
      (∀ e ∈ argTypes, e.1 ∈ argDict.map Prod.fst) →
      ∃ l, collectInvalidArgs argDict argTypes = .ok l ∧ l.Nodup ∧
        ∀ nm, nm ∈ l ↔ ∃ tys v, (nm, tys) ∈ argTypes ∧
          lookupKey nm argDict = some v ∧ isinstanceAny v tys = false := by
  intro argTypes
  induction argTypes with
  | nil =>
    intro _ _
    exact ⟨[], rfl, List.nodup_nil, by simp⟩
  | cons hd tl ih =>
    obtain ⟨n, tys⟩ := hd
    intro hnd hmem
    rw [List.map_cons] at hnd
    have hn : n ∉ tl.map Prod.fst := (List.nodup_cons.1 hnd).1
    have htlnd : (tl.map Prod.fst).Nodup := (List.nodup_cons.1 hnd).2
    obtain ⟨v, hv0⟩ :=
      lookupKey_exists_of_mem (hmem (n, tys) (List.mem_cons_self _ _))
    have hv : lookupKey n argDict = some v := hv0
    obtain ⟨l', hok, hnd', hiff⟩ :=
      ih htlnd (fun e he => hmem e (List.mem_cons_of_mem _ he))
    rcases hck : isinstanceAny v tys with _ | _
    · -- the head value fails its type check: the head name is collected
      refine ⟨n :: l', ?_, ?_, ?_⟩
      · simp only [collectInvalidArgs]
        rw [hv, hok]
        simp [hck]
      · refine List.nodup_cons.2 ⟨fun hc => ?_, hnd'⟩
        obtain ⟨tys', v', hmem', _, _⟩ := (hiff n).1 hc
        exact hn (List.mem_map.2 ⟨(n, tys'), hmem', rfl⟩)
      · intro nm
        constructor
        · intro hnm
          rcases List.mem_cons.1 hnm with rfl | hnm'
          · exact ⟨tys, v, List.mem_cons_self _ _, hv, hck⟩
          · obtain ⟨tys', v', hmem', hlv, hbad⟩ := (hiff nm).1 hnm'
            exact ⟨tys', v', List.mem_cons_of_mem _ hmem', hlv, hbad⟩
        · rintro ⟨tys', v', hmem', hlv, hbad⟩
          rcases List.mem_cons.1 hmem' with heq | hmem''
          · injection heq with h1 h2
            subst h1
            exact List.mem_cons_self _ _
          · exact List.mem_cons_of_mem _ ((hiff nm).2 ⟨tys', v', hmem'', hlv, hbad⟩)
    · -- the head value passes: the collected list is the tail's
      refine ⟨l', ?_, hnd', ?_⟩
      · simp only [collectInvalidArgs]
        rw [hv, hok]
        simp [hck]
      · intro nm
        rw [hiff nm]
        constructor
        · rintro ⟨tys', v', hmem', hlv, hbad⟩
          exact ⟨tys', v', List.mem_cons_of_mem _ hmem', hlv, hbad⟩
        · rintro ⟨tys', v', hmem', hlv, hbad⟩
          rcases List.mem_cons.1 hmem' with heq | hmem''
          · exfalso
            injection heq with h1 h2
            subst h1; subst h2
            rw [hv] at hlv
            cases hlv
            rw [hck] at hbad
            exact Bool.noConfusion hbad
          · exact ⟨tys', v', hmem'', hlv, hbad⟩

/-- C8: for every supplied argument map (over duplicate-free key lists, as
Python dicts are), a key set differing from the declared names — extra or
missing keys in any combination — makes `checkInvalidArgs` raise without
returning a partial result, while a key set exactly equal to the declared
names yields exactly the subset of names whose values fail their type
checks, empty precisely when the map is fully valid. -/
theorem checkInvalidArgs_contract (argTypes : List (String × List PyType))
    (argDict : List (String × PyVal))
    (hT : (argTypes.map Prod.fst).Nodup) (hD : (argDict.map Prod.fst).Nodup) :
    ((argDict.map Prod.fst).toFinset ≠ (argTypes.map Prod.fst).toFinset →
        checkInvalidArgs argTypes argDict = .error ()) ∧
    ((argDict.map Prod.fst).toFinset = (argTypes.map Prod.fst).toFinset →
      ∃ l, checkInvalidArgs argTypes argDict = .ok l ∧ l.Nodup ∧
        (∀ nm, nm ∈ l ↔ ∃ tys v, (nm, tys) ∈ argTypes ∧
            lookupKey nm argDict = some v ∧ isinstanceAny v tys = false) ∧
        (l = [] ↔ ∀ e ∈ argTypes, ∀ v, lookupKey e.1 argDict = some v →
            isinstanceAny v e.2 = true)) := by
  constructor
  · intro hne
    by_cases hlen : argDict.length = argTypes.length
    · -- equal sizes but different key sets: some declared name is missing
      have hmiss : ∃ e ∈ argTypes, lookupKey e.1 argDict = none := by
        by_contra hall
        push_neg at hall
        have hsub : (argTypes.map Prod.fst).toFinset ⊆ (argDict.map Prod.fst).toFinset := by
          intro x hx
          simp only [List.mem_toFinset, List.mem_map] at hx ⊢
          obtain ⟨e, he, rfl⟩ := hx
          obtain ⟨v, hv⟩ := Option.ne_none_iff_exists'.1 (hall e he)
          have : e.1 ∈ argDict.map Prod.fst := by
            by_contra hni
            rw [(lookupKey_eq_none_iff e.1 argDict).2 hni] at hv
            cases hv
          simpa using this
        have hcard : (argDict.map Prod.fst).toFinset.card
            = (argTypes.map Prod.fst).toFinset.card := by
          rw [List.toFinset_card_of_nodup hD, List.toFinset_card_of_nodup hT]
          simpa using hlen
        exact hne (Finset.eq_of_subset_of_card_le hsub (le_of_eq hcard)).symm
      unfold checkInvalidArgs
      rw [if_neg (by simpa using hlen)]
      exact collectInvalidArgs_error_of_missing argDict argTypes hmiss
    · unfold checkInvalidArgs
      rw [if_pos (by simpa using hlen)]
  · intro heq
    have hlen : argDict.length = argTypes.length := by
      have := congrArg Finset.card heq
      rw [List.toFinset_card_of_nodup hD, List.toFinset_card_of_nodup hT] at this
      simpa using this
    have hmem : ∀ e ∈ argTypes, e.1 ∈ argDict.map Prod.fst := by
      intro e he
      have : e.1 ∈ (argTypes.map Prod.fst).toFinset := by
        simp only [List.mem_toFinset, List.mem_map]
        exact ⟨e, he, rfl⟩
      rw [← heq] at this
      simpa using this
    obtain ⟨l, hok, hnd, hiff⟩ := collectInvalidArgs_ok argDict argTypes hT hmem
    refine ⟨l, ?_, hnd, hiff, ?_, ?_⟩
    · unfold checkInvalidArgs
      rw [if_neg (by simpa using hlen)]
      exact hok
    · intro hl e he v hv
      by_contra hbad
      have hfalse : isinstanceAny v e.2 = false := Bool.eq_false_iff.2 hbad
      have hmem2 : (e.1, e.2) ∈ argTypes := by
        rw [Prod.mk.eta]
        exact he
      have : e.1 ∈ l := (hiff e.1).2 ⟨e.2, v, hmem2, hv, hfalse⟩
      rw [hl] at this
      simp at this
    · intro hall
      rw [List.eq_nil_iff_forall_not_mem]
      intro nm hnm
      obtain ⟨tys, v, hmem', hlv, hbad⟩ := (hiff nm).1 hnm
      have := hall (nm, tys) hmem' v hlv
      rw [this] at hbad
      cases hbad

/-- Witness for C8: a map missing the declared key "B" while holding a
wrong-typed value for "A" raises the wrong-key-set error. -/
theorem checkInvalidArgs_contract_witness :
    checkInvalidArgs [("A", [PyType.int]), ("B", [PyType.float])]
      [("A", PyVal.str "x"), ("C", PyVal.int 3)] = .error () :=
  (checkInvalidArgs_contract [("A", [PyType.int]), ("B", [PyType.float])]
    [("A", PyVal.str "x"), ("C", PyVal.int 3)] (by decide) (by decide)).1 (by decide)

/-! ## Lemmas about the multi-slot spell-trace engine (C2, C5) -/

theorem scrollPhase_pass (cfg : STConfig) (stream : ℕ → ℚ) (s : STState)
    (ha : 0 < s.availSlots) (hu : stream s.rngIx ≤ cfg.scrollRate) :
    scrollPhase cfg stream s =
      { s with rngIx := s.rngIx + 1,
               scrollCosts := s.scrollCosts + cfg.scrollCost,
               availSlots := s.availSlots - 1,
               pScrolls := s.pScrolls + 1,
               curPassed := s.curPassed + 1 } := by
  unfold scrollPhase
  rw [if_pos ha, if_pos hu]

theorem scrollPhase_noSlot (cfg : STConfig) (stream : ℕ → ℚ) (s : STState)
    (ha : ¬ 0 < s.availSlots) : scrollPhase cfg stream s = s := by
  unfold scrollPhase
  rw [if_neg ha]

theorem escalatePhase_skip (cfg : STConfig) (stream : ℕ → ℚ) (fl : ℕ) (s : STState)
    (h1 : ¬ s.innoTol < (s.curFailed : ℤ))
    (h2 : ¬(cfg.useHammer = true ∧ s.availSlots = 0 ∧ s.eqpHammers < 2))
    (h3 : ¬(s.availSlots = 0 ∧ 0 < s.curFailed)) :
    escalatePhase cfg stream fl s = some s := by
  unfold escalatePhase
  rw [if_neg h1, if_neg h2, if_neg h3]

theorem escalatePhase_hammer_pass (cfg : STConfig) (stream : ℕ → ℚ) (fl : ℕ) (s : STState)
    (h1 : ¬ s.innoTol < (s.curFailed : ℤ))
    (h2 : cfg.useHammer = true ∧ s.availSlots = 0 ∧ s.eqpHammers < 2)
    (hu : stream s.rngIx < cfg.hammerRate) :
    escalatePhase cfg stream fl s =
      some { s with eqpHammers := s.eqpHammers + 1,
                    hammerCosts := s.hammerCosts + cfg.hammerCost,
                    pHammers := s.pHammers + 1,
                    availSlots := s.availSlots + 1,
                    innoTol := if cfg.greedyAfterInno then s.innoTol + 1 else s.innoTol,
                    rngIx := s.rngIx + 1 } := by
  unfold escalatePhase
  rw [if_neg h1, if_pos h2, if_pos hu]

theorem stRun_exit (cfg : STConfig) (stream : ℕ → ℚ) (fl : ℕ) (s : STState)
    (h : ¬ s.curPassed < totSlots cfg) :
    ∀ b : ℕ, stRun cfg stream fl b s = some s := by
  intro b
  cases b with
  | zero => simp [stRun, h]
  | succ k => simp [stRun, h]

theorem stRun_mono (cfg : STConfig) (stream : ℕ → ℚ) (fl : ℕ) :
    ∀ (n m : ℕ) (s f : STState),
      stRun cfg stream fl n s = some f → stRun cfg stream fl (n + m) s = some f := by
  intro n
  induction n with
  | zero =>
    intro m s f h
    simp only [stRun] at h
    split at h
    · cases h
    · injection h with h'
      subst h'
      exact stRun_exit cfg stream fl s (by assumption) _
  | succ k ih =>
    intro m s f h
    simp only [stRun] at h
    split at h
    case isTrue hc =>
      rcases hes : escalatePhase cfg stream fl (scrollPhase cfg stream s) with _ | s2
      · rw [hes] at h; cases h
      · rw [hes] at h
        have h2 := ih m s2 f h
        have hk : k + 1 + m = (k + m) + 1 := by omega
        rw [hk]
        simp only [stRun]
        rw [if_pos hc, hes]
        exact h2
    case isFalse hc =>
      injection h with h'
      subst h'
      exact stRun_exit cfg stream fl s hc _

/-- The exact run of the loop in the all-success hammer regime: from any
state with no pending failures, a nonnegative tolerance, at most two
hammers used, consistent slot accounting and at least one available slot
(or the trial already complete), the loop finishes in `n + 1` iterations,
passing the remaining `n` slots with base scrolls and spending the
remaining hammers, with no failures, saves, restarts or repairs. -/
theorem stRun_allPass (cfg : STConfig) (stream : ℕ → ℚ) (fl : ℕ)
    (hH : cfg.useHammer = true) (hSR : cfg.scrollRate = 1) (hHR : cfg.hammerRate = 1)
    (hstr : ∀ i, 0 ≤ stream i ∧ stream i < 1) :
    ∀ (n : ℕ) (s : STState),
      s.curFailed = 0 → 0 ≤ s.innoTol → s.eqpHammers ≤ 2 →
      s.curPassed + s.availSlots = cfg.eqpSlots + s.eqpHammers →
      (1 ≤ s.availSlots ∨ s.curPassed = cfg.eqpSlots + 2) →
      cfg.eqpSlots + 2 = s.curPassed + n →
      ∃ f, stRun cfg stream fl (n + 1) s = some f ∧
        f.curPassed = cfg.eqpSlots + 2 ∧
        f.pScrolls = s.pScrolls + n ∧
        f.scrollCosts = s.scrollCosts + (n : ℤ) * cfg.scrollCost ∧
        f.pHammers = s.pHammers + (2 - s.eqpHammers) ∧
        f.hammerCosts = s.hammerCosts + ((2 - s.eqpHammers : ℕ) : ℤ) * cfg.hammerCost ∧
        f.fScrolls = s.fScrolls ∧ f.fInnos = s.fInnos ∧ f.fCSS = s.fCSS ∧
        f.fHammers = s.fHammers ∧ f.pInnos = s.pInnos ∧ f.pCSS = s.pCSS ∧
        f.numGS = s.numGS ∧ f.innoCosts = s.innoCosts ∧ f.cssCosts = s.cssCosts := by
  have htot : totSlots cfg = cfg.eqpSlots + 2 := by simp [totSlots, hH]
  intro n
  induction n with
  | zero =>
    intro s h0 htol hh2 hacc hav hcnt
    have hh : s.eqpHammers = 2 := by omega
    refine ⟨s, stRun_exit cfg stream fl s (by omega) _, by omega, by omega, by simp,
      ?_, ?_, rfl, rfl, rfl, rfl, rfl, rfl, rfl, rfl, rfl⟩
    · rw [hh]; simp
    · rw [hh]; simp
  | succ k ih =>
    intro s h0 htol hh2 hacc hav hcnt
    have hav1 : 1 ≤ s.availSlots := by
      rcases hav with h | h
      · exact h
      · omega
    have hcond : s.curPassed < totSlots cfg := by omega
    have hu := hstr s.rngIx
    have hsc := scrollPhase_pass cfg stream s hav1 (by rw [hSR]; exact le_of_lt hu.2)
    by_cases hlast : s.availSlots = 1 ∧ s.eqpHammers < 2
    · -- the scroll empties the slots and a hammer is still available
      obtain ⟨hA1, hHlt⟩ := hlast
      have hu2 := hstr (s.rngIx + 1)
      have hes0 := escalatePhase_hammer_pass cfg stream fl
        { s with rngIx := s.rngIx + 1,
                 scrollCosts := s.scrollCosts + cfg.scrollCost,
                 availSlots := s.availSlots - 1,
                 pScrolls := s.pScrolls + 1,
                 curPassed := s.curPassed + 1 }
        (by dsimp only; rw [h0]; push_cast; omega)
        ⟨hH, by dsimp only; omega, by dsimp only; omega⟩
        (by dsimp only; rw [hHR]; exact hu2.2)
      have hes : escalatePhase cfg stream fl
          { s with rngIx := s.rngIx + 1,
                   scrollCosts := s.scrollCosts + cfg.scrollCost,
                   availSlots := s.availSlots - 1,
                   pScrolls := s.pScrolls + 1,
                   curPassed := s.curPassed + 1 }
          = some { s with rngIx := s.rngIx + 1 + 1,
                          scrollCosts := s.scrollCosts + cfg.scrollCost,
                          availSlots := s.availSlots - 1 + 1,
                          pScrolls := s.pScrolls + 1,
                          curPassed := s.curPassed + 1,
                          eqpHammers := s.eqpHammers + 1,
                          hammerCosts := s.hammerCosts + cfg.hammerCost,
                          pHammers := s.pHammers + 1,
                          innoTol := if cfg.greedyAfterInno then s.innoTol + 1
                                     else s.innoTol } := by
        rw [hes0]
      obtain ⟨f, hrun, hfp, hfs, hfsc, hfh, hfhc, he1, he2, he3, he4, he5, he6, he7, he8, he9⟩ :=
        ih { s with rngIx := s.rngIx + 1 + 1,
                    scrollCosts := s.scrollCosts + cfg.scrollCost,
                    availSlots := s.availSlots - 1 + 1,
                    pScrolls := s.pScrolls + 1,
                    curPassed := s.curPassed + 1,
                    eqpHammers := s.eqpHammers + 1,
                    hammerCosts := s.hammerCosts + cfg.hammerCost,
                    pHammers := s.pHammers + 1,
                    innoTol := if cfg.greedyAfterInno then s.innoTol + 1 else s.innoTol }
          (by dsimp only; exact h0) (by dsimp only; split <;> omega)
          (by dsimp only; omega) (by dsimp only; omega)
          (by dsimp only; left; omega) (by dsimp only; omega)
      dsimp only at hfp hfs hfsc hfh hfhc he1 he2 he3 he4 he5 he6 he7 he8 he9
      refine ⟨f, ?_, hfp, by omega, ?_, ?_, ?_, he1, he2, he3, he4, he5, he6, he7, he8, he9⟩
      · simp only [stRun]
        rw [if_pos hcond, hsc, hes]
        exact hrun
      · rw [hfsc]
        push_cast
        ring
      · rw [hfh]
        omega
      · rw [hfhc]
        have hstep : (2 - s.eqpHammers : ℕ) = (2 - (s.eqpHammers + 1) : ℕ) + 1 := by omega
        rw [hstep]
        push_cast
        ring
    · -- no hammer follows the scroll: either slots remain or hammers are spent
      have hes := escalatePhase_skip cfg stream fl
        { s with rngIx := s.rngIx + 1,
                 scrollCosts := s.scrollCosts + cfg.scrollCost,
                 availSlots := s.availSlots - 1,
                 pScrolls := s.pScrolls + 1,
                 curPassed := s.curPassed + 1 }
        (by dsimp only; rw [h0]; push_cast; omega)
        (by
          dsimp only
          rintro ⟨hH', hz, hlt⟩
          exact hlast ⟨by omega, hlt⟩)
        (by dsimp only; rw [h0]; rintro ⟨hz, hgt⟩; omega)
      obtain ⟨f, hrun, hfp, hfs, hfsc, hfh, hfhc, he1, he2, he3, he4, he5, he6, he7, he8, he9⟩ :=
        ih { s with rngIx := s.rngIx + 1,
                    scrollCosts := s.scrollCosts + cfg.scrollCost,
                    availSlots := s.availSlots - 1,
                    pScrolls := s.pScrolls + 1,
                    curPassed := s.curPassed + 1 }
          (by dsimp only; exact h0) (by dsimp only; exact htol)
          (by dsimp only; omega) (by dsimp only; omega)
          (by
            dsimp only
            rcases Nat.lt_or_ge 1 s.availSlots with hgt | hle
            · left; omega
            · -- availSlots = 1 and both hammers are already used
              right
              have h1 : s.availSlots = 1 := by omega
              have h2 : s.eqpHammers = 2 := by
                by_contra hne
                exact hlast ⟨h1, by omega⟩
              omega)
          (by dsimp only; omega)
      dsimp only at hfp hfs hfsc hfh hfhc he1 he2 he3 he4 he5 he6 he7 he8 he9
      refine ⟨f, ?_, hfp, by omega, ?_, ?_, ?_, he1, he2, he3, he4, he5, he6, he7, he8, he9⟩
      · simp only [stRun]
        rw [if_pos hcond, hsc, hes]
        exact hrun
      · rw [hfsc]
        push_cast
        ring
      · rw [hfh]
      · rw [hfhc]

/-- C2 counterexample: with the extension mechanic enabled (one slot), the
state as initialised by `performTrial` already violates the claimed
invariant — available slots start at N (here 1), not N + 2, while the total
target slot count is N + 2 (here 3), so available + passed ≠ total right
after initialization. -/
theorem claim_C2_cex :
    (stInit hammerOneCfg).availSlots + (stInit hammerOneCfg).curPassed
      ≠ totSlots hammerOneCfg := by
  decide

/-- C2 (amended): in the multi-slot engine, available slots start at N
regardless of the extension mechanic, and the quantity preserved at every
point between operations (after initialization, after the base attempt, and
after each escalation step) is: available slots + passed slots +
consecutive-failure count = N + hammer uses since the last restart. -/
theorem claim_C2_slot_invariant (cfg : STConfig) (stream : ℕ → ℚ) (fuel : ℕ)
    (s s' : STState) :
    (stInit cfg).availSlots = cfg.eqpSlots ∧
    slotInv cfg (stInit cfg) ∧
    (slotInv cfg s → slotInv cfg (scrollPhase cfg stream s)) ∧
    (slotInv cfg s → escalatePhase cfg stream fuel s = some s' → slotInv cfg s') := by
  refine ⟨rfl, ?_, ?_, ?_⟩
  · simp [slotInv, stInit]
  · intro h
    unfold slotInv at h ⊢
    unfold scrollPhase
    split
    case isTrue ha =>
      split
      case isTrue hu => dsimp only; omega
      case isFalse hu =>
        split
        case isTrue hg => dsimp only; omega
        case isFalse hg => dsimp only; omega
    case isFalse ha => exact h
  · intro h hesc
    unfold slotInv at h ⊢
    unfold escalatePhase at hesc
    split at hesc
    case isTrue hinno =>
      rcases hfp : simulateForcePassedScroll stream cfg.innoRate cfg.innoCost fuel s.rngIx
        with _ | r
      · rw [hfp] at hesc; cases hesc
      · rw [hfp] at hesc
        dsimp only at hesc
        injection hesc with heq
        subst heq
        simp [resetState]
    case isFalse hinno =>
      split at hesc
      case isTrue hham =>
        split at hesc
        case isTrue hu =>
          injection hesc with heq
          subst heq
          dsimp only
          omega
        case isFalse hu =>
          injection hesc with heq
          subst heq
          dsimp only
          omega
      case isFalse hham =>
        split at hesc
        case isTrue hcss =>
          rcases hfp : simulateForcePassedScroll stream cfg.cssRate cfg.cssCost fuel s.rngIx
            with _ | r
          · rw [hfp] at hesc; cases hesc
          · rw [hfp] at hesc
            dsimp only at hesc
            injection hesc with heq
            subst heq
            dsimp only
            obtain ⟨hz, hpos⟩ := hcss
            omega
        case isFalse hcss =>
          injection hesc with heq
          subst heq
          exact h

/-- Witness for C2 at the concrete one-slot configuration: the slot
invariant holds at initialization and is preserved by a base attempt. -/
theorem claim_C2_witness :
    slotInv hammerOneCfg (stInit hammerOneCfg) ∧
    slotInv hammerOneCfg (scrollPhase hammerOneCfg (fun _ => 0) (stInit hammerOneCfg)) := by
  have h := claim_C2_slot_invariant hammerOneCfg (fun _ => 0) 0
    (stInit hammerOneCfg) (stInit hammerOneCfg)
  exact ⟨h.2.1, h.2.2.1 h.2.1⟩

/-- C5 counterexample: at one slot with base cost 200 and extension cost 1
(all rates 1, extension enabled), the engine's total cost is 602 =
(N+2)·baseCost + 2·extendCost, not N·baseCost + 2·extendCost = 202 as the
claim states — the base consumable is charged for all N+2 passes. -/
theorem claim_C5_cex :
    ((stPerformTrial hammerOneCfg (fun _ => 0) 5).map (fun r => r.totalTraceCost)
        = some 602) ∧
    (602 : ℤ) ≠ (hammerOneCfg.eqpSlots : ℤ) * hammerOneCfg.scrollCost
        + 2 * hammerOneCfg.hammerCost := by
  constructor
  · decide
  · decide

/-- C5 (amended): with base (scroll) rate 1, the extension mechanic enabled
with extension (hammer) rate 1, and a nonnegative failure tolerance, for
every slot count N and every randomness stream with draws in [0, 1) the
trial terminates with total cost (N+2)·baseCost + 2·extendCost, N+2 passed
base consumables, 2 passed extensions, and all failure and save counters
zero. -/
theorem claim_C5_rateOne_hammer (cfg : STConfig) (stream : ℕ → ℚ)
    (hH : cfg.useHammer = true) (hSR : cfg.scrollRate = 1) (hHR : cfg.hammerRate = 1)
    (htol : 0 ≤ cfg.innoAfterTol) (hstr : ∀ i, 0 ≤ stream i ∧ stream i < 1) :
    stPerformTrial cfg stream (cfg.eqpSlots + 4) =
      some { totalTraceCost := ((cfg.eqpSlots : ℤ) + 2) * cfg.scrollCost
                                 + 2 * cfg.hammerCost,
             innoTraceCost := 0,
             scrollTraceCost := ((cfg.eqpSlots : ℤ) + 2) * cfg.scrollCost,
             cssTraceCost := 0,
             hammerTraceCost := 2 * cfg.hammerCost,
             numFailedScrolls := 0, numFailedInnos := 0, numFailedCSS := 0,
             numFailedHammers := 0,
             numPassedScrolls := cfg.eqpSlots + 2, numPassedInnos := 0,
             numPassedCSS := 0, numPassedHammers := 2, numGuildSaves := 0 } := by
  have htot : totSlots cfg = cfg.eqpSlots + 2 := by simp [totSlots, hH]
  rcases Nat.eq_zero_or_pos cfg.eqpSlots with hN | hN
  · -- no slot available at the start: the first cycle is a bare extension
    rw [hN]
    have h4 : (0 : ℕ) + 4 = 3 + 1 := rfl
    rw [h4]
    have hu0 := hstr (stInit cfg).rngIx
    have hsc0 : scrollPhase cfg stream (stInit cfg) = stInit cfg :=
      scrollPhase_noSlot cfg stream (stInit cfg) (by simp [stInit, hN])
    have hes0 := escalatePhase_hammer_pass cfg stream (3 + 1) (stInit cfg)
      (by simp only [stInit]; push_cast; omega)
      ⟨hH, by simp [stInit, hN], by simp [stInit]⟩
      (by simp only [stInit]; rw [hHR]; exact (hstr 0).2)
    have hes : escalatePhase cfg stream (3 + 1) (stInit cfg)
        = some { innoCosts := 0, scrollCosts := 0, cssCosts := 0,
                 hammerCosts := 0 + cfg.hammerCost, fScrolls := 0, fInnos := 0,
                 fCSS := 0, fHammers := 0, pScrolls := 0, pInnos := 0, pCSS := 0,
                 pHammers := 0 + 1, numGS := 0, eqpHammers := 0 + 1, curPassed := 0,
                 curFailed := 0, availSlots := cfg.eqpSlots + 1,
                 innoTol := if cfg.greedyAfterInno then cfg.innoAfterTol + 1
                            else cfg.innoAfterTol,
                 rngIx := 0 + 1 } := by
      rw [hes0]
      rfl
    obtain ⟨f, hrun, hfp, hfs, hfsc, hfh, hfhc, he1, he2, he3, he4, he5, he6, he7, he8, he9⟩ :=
      stRun_allPass cfg stream (3 + 1) hH hSR hHR hstr 2
        { innoCosts := 0, scrollCosts := 0, cssCosts := 0,
          hammerCosts := 0 + cfg.hammerCost, fScrolls := 0, fInnos := 0,
          fCSS := 0, fHammers := 0, pScrolls := 0, pInnos := 0, pCSS := 0,
          pHammers := 0 + 1, numGS := 0, eqpHammers := 0 + 1, curPassed := 0,
          curFailed := 0, availSlots := cfg.eqpSlots + 1,
          innoTol := if cfg.greedyAfterInno then cfg.innoAfterTol + 1
                     else cfg.innoAfterTol,
          rngIx := 0 + 1 }
        rfl (by dsimp only; split <;> omega) (by dsimp only; omega)
        (by dsimp only; omega) (by dsimp only; left; omega)
        (by dsimp only; omega)
    dsimp only at hfp hfs hfsc hfh hfhc he1 he2 he3 he4 he5 he6 he7 he8 he9
    have hfull : stRun cfg stream (3 + 1) (3 + 1) (stInit cfg) = some f := by
      simp only [stRun]
      rw [if_pos (by simp [stInit, htot, hN]), hsc0, hes]
      exact hrun
    unfold stPerformTrial
    rw [hfull]
    refine congrArg some ?_
    simp only [stResult, STResult.mk.injEq]
    refine ⟨?_, by omega, ?_, by omega, ?_, by omega, by omega, by omega, by omega,
      by omega, by omega, by omega, by omega, by omega⟩
    · rw [he8, he9, hfsc, hfhc]
      push_cast
      ring
    · rw [hfsc]
      push_cast
      ring
    · rw [hfhc]
      push_cast
      ring
  · -- at least one slot: the run starts with base attempts straight away
    obtain ⟨f, hrun, hfp, hfs, hfsc, hfh, hfhc, he1, he2, he3, he4, he5, he6, he7, he8, he9⟩ :=
      stRun_allPass cfg stream (cfg.eqpSlots + 4) hH hSR hHR hstr
        (cfg.eqpSlots + 2) (stInit cfg)
        rfl htol (by simp [stInit]) (by simp [stInit])
        (Or.inl (by simpa [stInit] using hN)) (by simp [stInit])
    have hmono := stRun_mono cfg stream (cfg.eqpSlots + 4) (cfg.eqpSlots + 2 + 1) 1
      (stInit cfg) f hrun
    have hb : cfg.eqpSlots + 2 + 1 + 1 = cfg.eqpSlots + 4 := by omega
    rw [hb] at hmono
    dsimp only [stInit] at hfp hfs hfsc hfh hfhc he1 he2 he3 he4 he5 he6 he7 he8 he9
    unfold stPerformTrial
    rw [hmono]
    refine congrArg some ?_
    simp only [stResult, STResult.mk.injEq]
    refine ⟨?_, by omega, ?_, by omega, ?_, by omega, by omega, by omega, by omega,
      by omega, by omega, by omega, by omega, by omega⟩
    · rw [he8, he9, hfsc, hfhc]
      push_cast
      ring
    · rw [hfsc]
      push_cast
      ring
    · rw [hfhc]
      push_cast
      ring

/-- Witness for C5: the concrete one-slot configuration gives total cost
602 = 3·200 + 2·1, three passed base scrolls and two passed hammers. -/
theorem claim_C5_witness :
    stPerformTrial hammerOneCfg (fun _ => 0) 5 =
      some { totalTraceCost := 602, innoTraceCost := 0, scrollTraceCost := 600,
             cssTraceCost := 0, hammerTraceCost := 2,
             numFailedScrolls := 0, numFailedInnos := 0, numFailedCSS := 0,
             numFailedHammers := 0,
             numPassedScrolls := 3, numPassedInnos := 0, numPassedCSS := 0,
             numPassedHammers := 2, numGuildSaves := 0 } := by
  have h := claim_C5_rateOne_hammer hammerOneCfg (fun _ => 0) rfl rfl rfl
    (by norm_num [hammerOneCfg]) (fun i => ⟨le_refl 0, by norm_num⟩)
  rw [show hammerOneCfg.eqpSlots + 4 = 5 from rfl] at h
  rw [h]
  norm_num [hammerOneCfg]

/-! ## Lemmas about the hexa-stat core (C6, C7) -/

theorem P_SUCC_VALS_bounds (n : ℕ) : 0 ≤ P_SUCC_VALS n ∧ P_SUCC_VALS n < 1 := by
  unfold P_SUCC_VALS
  rcases Nat.lt_or_ge n 11 with h | h
  · interval_cases n <;> norm_num
  · rw [List.getD_eq_default]
    · norm_num
    · simpa using h

/-- For a draw in [0, 1) the selection always succeeds, picks an index below
3, and picks the primary only on a success roll or when both secondaries are
maxed, and a secondary only when that secondary is not yet maxed. -/
theorem updateInd_some (c : HexaStatCore) (u : ℚ) (h0 : 0 ≤ u) (h1 : u < 1) :
    ∃ i, updateInd c u = some i ∧ i < 3 ∧
      (i = 0 → c.s1 < 10 ∨ (c.s2 = 10 ∧ c.s3 = 10)) ∧
      (i = 1 → c.s2 ≠ 10) ∧ (i = 2 → c.s3 ≠ 10) := by
  unfold updateInd
  rw [if_neg (not_not_intro ⟨h0, h1⟩)]
  by_cases hA : c.s1 < 10 ∧ u < P_SUCC_VALS c.s1
  · rw [if_pos hA]
    exact ⟨0, rfl, by omega, fun _ => Or.inl hA.1, by omega, by omega⟩
  · rw [if_neg hA]
    by_cases hB : c.s2 = 10 ∧ c.s3 = 10
    · rw [if_pos hB]
      exact ⟨0, rfl, by omega, fun _ => Or.inr hB, by omega, by omega⟩
    · rw [if_neg hB]
      by_cases hC : c.s2 = 10
      · rw [if_pos hC]
        exact ⟨2, rfl, by omega, by omega, by omega, fun _ h3 => hB ⟨hC, h3⟩⟩
      · rw [if_neg hC]
        by_cases hD : c.s3 = 10
        · rw [if_pos hD]
          exact ⟨1, rfl, by omega, by omega, fun _ => hC, by omega⟩
        · rw [if_neg hD]
          by_cases hE : 0 ≤ u - P_SUCC_VALS c.s1
              ∧ u - P_SUCC_VALS c.s1 < (1 - P_SUCC_VALS c.s1) / 2
          · rw [if_pos hE]
            exact ⟨1, rfl, by omega, by omega, fun _ => hC, by omega⟩
          · rw [if_neg hE]
            exact ⟨2, rfl, by omega, by omega, by omega, fun _ => hD⟩

/-- One level-up from a well-formed core below the cap: the draw is consumed,
the node level rises by one, exactly one stat rises by exactly one, and
well-formedness is preserved. -/
theorem levelNode_step (c : HexaStatCore) (u : ℚ) (hwf : coreWF c)
    (hlt : c.nodeLevel < 20) (h0 : 0 ≤ u) (h1 : u < 1) :
    ∃ c2 cost, levelNode c u = some (c2, cost) ∧ coreWF c2 ∧
      c2.nodeLevel = c.nodeLevel + 1 ∧
      c2.s1 + c2.s2 + c2.s3 = c.s1 + c.s2 + c.s3 + 1 ∧
      ((c2.s1 = c.s1 + 1 ∧ c2.s2 = c.s2 ∧ c2.s3 = c.s3) ∨
       (c2.s1 = c.s1 ∧ c2.s2 = c.s2 + 1 ∧ c2.s3 = c.s3) ∨
       (c2.s1 = c.s1 ∧ c2.s2 = c.s2 ∧ c2.s3 = c.s3 + 1)) := by
  obtain ⟨ha1, ha2, hb1, hb2, hc1, hc2, hsum, hl1, hl2⟩ := hwf
  obtain ⟨i, hui, hi3, hi0, hi1, hi2⟩ := updateInd_some c u h0 h1
  unfold levelNode
  rw [if_neg (by omega), hui]
  rcases i with _ | _ | _ | i
  · -- the primary is incremented
    have hs1lt : c.s1 < 10 := by
      rcases hi0 rfl with h | ⟨h2, h3⟩
      · exact h
      · omega
    refine ⟨_, _, rfl, ?_, ?_, ?_, Or.inl ⟨?_, ?_, ?_⟩⟩ <;>
      dsimp only [bumpStat, coreWF] <;> omega
  · -- the first secondary is incremented
    have hs2lt : c.s2 < 10 := by
      have := hi1 rfl
      omega
    refine ⟨_, _, rfl, ?_, ?_, ?_, Or.inr (Or.inl ⟨?_, ?_, ?_⟩)⟩ <;>
      dsimp only [bumpStat, coreWF] <;> omega
  · -- the second secondary is incremented
    have hs3lt : c.s3 < 10 := by
      have := hi2 rfl
      omega
    refine ⟨_, _, rfl, ?_, ?_, ?_, Or.inr (Or.inr ⟨?_, ?_, ?_⟩)⟩ <;>
      dsimp only [bumpStat, coreWF] <;> omega
  · omega

theorem levelIter_wf (stream : ℕ → ℚ) (hstr : ∀ i, 0 ≤ stream i ∧ stream i < 1) :
    ∀ (k : ℕ) (c : HexaStatCore) (ix : ℕ), coreWF c → c.nodeLevel + k ≤ 20 →
      ∃ c2, levelIter stream k (c, ix) = some (c2, ix + k) ∧ coreWF c2 ∧
        c2.nodeLevel = c.nodeLevel + k := by
  intro k
  induction k with
  | zero =>
    intro c ix hwf _
    exact ⟨c, rfl, hwf, by omega⟩
  | succ m ih =>
    intro c ix hwf hle
    obtain ⟨c2, cost, hln, hwf2, hlvl2, _, _⟩ :=
      levelNode_step c (stream ix) hwf (by omega) (hstr ix).1 (hstr ix).2
    obtain ⟨c3, hit, hwf3, hlvl3⟩ := ih c2 (ix + 1) hwf2 (by omega)
    refine ⟨c3, ?_, hwf3, by omega⟩
    simp only [levelIter]
    rw [hln]
    dsimp only
    rw [show ix + (m + 1) = ix + 1 + m from by omega]
    exact hit

/-- C6: the leveling-state invariant: each successful level-up from a
well-formed core increments exactly one stat by exactly 1 and the node level
by 1, keeping sum(stats) = nodeLevel + 2 and every stat within [1, 10];
reset restores everything to 1; and for any in-range stream, 19 consecutive
level-ups from the initial all-ones state succeed, stay well-formed (so all
intermediate stat levels are within [1, 10]), and reach node level 20 with
the stat levels summing to 22. -/
theorem claim_C6_leveling_invariant (stream : ℕ → ℚ)
    (hstr : ∀ i, 0 ≤ stream i ∧ stream i < 1) :
    (∀ (c : HexaStatCore) (u : ℚ), coreWF c → c.nodeLevel < 20 → 0 ≤ u → u < 1 →
      ∃ c2 cost, levelNode c u = some (c2, cost) ∧ coreWF c2 ∧
        c2.nodeLevel = c.nodeLevel + 1 ∧
        c2.s1 + c2.s2 + c2.s3 = c.s1 + c.s2 + c.s3 + 1 ∧
        ((c2.s1 = c.s1 + 1 ∧ c2.s2 = c.s2 ∧ c2.s3 = c.s3) ∨
         (c2.s1 = c.s1 ∧ c2.s2 = c.s2 + 1 ∧ c2.s3 = c.s3) ∨
         (c2.s1 = c.s1 ∧ c2.s2 = c.s2 ∧ c2.s3 = c.s3 + 1))) ∧
    (∀ c : HexaStatCore, 10 ≤ c.nodeLevel →
        resetNode c = some { nodeLevel := 1, s1 := 1, s2 := 1, s3 := 1 }) ∧
    (∀ k, k ≤ 19 → ∃ c2, levelIter stream k ({}, 0) = some (c2, k) ∧ coreWF c2 ∧
        c2.nodeLevel = 1 + k) ∧
    ((levelIter stream 19 ({}, 0)).map
        (fun p => (p.1.nodeLevel, p.1.s1 + p.1.s2 + p.1.s3)) = some (20, 22)) := by
  have hinit : coreWF ({} : HexaStatCore) :=
    ⟨by norm_num, by norm_num, by norm_num, by norm_num, by norm_num, by norm_num,
     rfl, by norm_num, by norm_num⟩
  have hiter : ∀ k, k ≤ 19 → ∃ c2, levelIter stream k ({}, 0) = some (c2, k) ∧
      coreWF c2 ∧ c2.nodeLevel = 1 + k := by
    intro k hk
    obtain ⟨c2, hit, hwf2, hlvl⟩ := levelIter_wf stream hstr k {} 0 hinit (by
      show (1 : ℕ) + k ≤ 20
      omega)
    exact ⟨c2, by simpa using hit, hwf2, by simpa using hlvl⟩
  refine ⟨fun c u => levelNode_step c u, ?_, hiter, ?_⟩
  · intro c hc
    unfold resetNode
    rw [if_neg (by omega)]
  · obtain ⟨c2, hit, hwf2, hlvl⟩ := hiter 19 (by norm_num)
    rw [hit]
    show some (c2.nodeLevel, c2.s1 + c2.s2 + c2.s3) = some (20, 22)
    obtain ⟨_, _, _, _, _, _, hsum, _, _⟩ := hwf2
    have h1 : c2.nodeLevel = 20 := by omega
    have h2 : c2.s1 + c2.s2 + c2.s3 = 22 := by omega
    rw [h1, h2]

/-- Witness for C6: with the all-zero stream, 19 level-ups from the initial
state reach node level 20 with stat levels summing to 22. -/
theorem claim_C6_witness :
    (levelIter (fun _ => (0 : ℚ)) 19 ({}, 0)).map
        (fun p => (p.1.nodeLevel, p.1.s1 + p.1.s2 + p.1.s3)) = some (20, 22) :=
  (claim_C6_leveling_invariant (fun _ => 0)
    (fun _ => ⟨le_refl 0, by norm_num⟩)).2.2.2

theorem updateInd_eq_specSelect (c : HexaStatCore) (u : ℚ)
    (h0 : 0 ≤ u) (h1 : u < 1) :
    updateInd c u = some (specSelect c u) := by
  unfold updateInd specSelect
  rw [if_neg (not_not_intro ⟨h0, h1⟩)]
  by_cases hA : c.s1 < 10 ∧ u < P_SUCC_VALS c.s1
  · rw [if_pos hA, if_pos hA]
  · rw [if_neg hA, if_neg hA]
    by_cases hB : c.s2 = 10 ∧ c.s3 = 10
    · rw [if_pos hB, if_pos hB]
    · rw [if_neg hB, if_neg hB]
      by_cases hC : c.s2 = 10
      · have hC3 : c.s3 ≠ 10 := fun h3 => hB ⟨hC, h3⟩
        rw [if_pos hC, if_pos ⟨hC, hC3⟩]
      · rw [if_neg hC, if_neg (fun hcc : c.s2 = 10 ∧ c.s3 ≠ 10 => hC hcc.1)]
        by_cases hD : c.s3 = 10
        · rw [if_pos hD, if_pos ⟨hD, hC⟩]
        · rw [if_neg hD, if_neg (fun hdd : c.s3 = 10 ∧ c.s2 ≠ 10 => hD hdd.1)]
          by_cases hE : 0 ≤ u - P_SUCC_VALS c.s1
              ∧ u - P_SUCC_VALS c.s1 < (1 - P_SUCC_VALS c.s1) / 2
          · rw [if_pos hE, if_pos hE]
          · rw [if_neg hE, if_neg hE]

/-- C7: on draws in [0, 1), `updateInd` implements the spec's ordered
selection cases exactly (it agrees everywhere with `specSelect`, the rule
written from the spec's words), and at the exact boundary draw
u = successProb[primary] with both secondaries below 10 the first secondary
is chosen — the residual 0 lies in [0, (1 − p)/2). -/
theorem claim_C7_selection_rule (c : HexaStatCore) (u : ℚ)
    (h0 : 0 ≤ u) (h1 : u < 1) :
    updateInd c u = some (specSelect c u) ∧
    (c.s2 ≠ 10 → c.s3 ≠ 10 → updateInd c (P_SUCC_VALS c.s1) = some 1) := by
  constructor
  · exact updateInd_eq_specSelect c u h0 h1
  · intro h2 h3
    have hb := P_SUCC_VALS_bounds c.s1
    unfold updateInd
    rw [if_neg (not_not_intro ⟨hb.1, hb.2⟩)]
    rw [if_neg (fun hc : c.s1 < 10 ∧ P_SUCC_VALS c.s1 < P_SUCC_VALS c.s1 =>
      absurd hc.2 (lt_irrefl _))]
    rw [if_neg (fun hc : c.s2 = 10 ∧ c.s3 = 10 => h2 hc.1)]
    rw [if_neg h2, if_neg h3]
    rw [if_pos ⟨le_of_eq (sub_self _).symm, by rw [sub_self]; linarith [hb.2]⟩]

/-- Witness for C7 at the initial core and the boundary draw. -/
theorem claim_C7_witness :
    updateInd { nodeLevel := 1, s1 := 1, s2 := 1, s3 := 1 } (1 / 2)
      = some (specSelect { nodeLevel := 1, s1 := 1, s2 := 1, s3 := 1 } (1 / 2)) ∧
    updateInd { nodeLevel := 1, s1 := 1, s2 := 1, s3 := 1 } (P_SUCC_VALS 1)
      = some 1 := by
  have h := claim_C7_selection_rule { nodeLevel := 1, s1 := 1, s2 := 1, s3 := 1 }
    (1 / 2) (by norm_num) (by norm_num)
  exact ⟨h.1, h.2 (by norm_num) (by norm_num)⟩

/-! ## Lemmas about the hexa-stat framework (C3, C4, C9, C10) -/

/-- When a policy is already loaded for the same path, the policy-import
step is the identity: nothing is imported and no default is synthesized. -/
theorem policyPhase_skip (fs : FileSys) (target : ℤ) (path : String)
    (st : HexaStatFramework) (h1 : st.loadedPolicy = true)
    (h2 : st.lastPolicyDir = path) :
    policyPhase fs target path st = (st, none) := by
  unfold policyPhase
  rw [if_neg (by simp [h1, h2])]

/-- After the policy-import step the cache flags always record the supplied
path as loaded. -/
theorem policyPhase_flags (fs : FileSys) (target : ℤ) (path : String)
    (st : HexaStatFramework) :
    (policyPhase fs target path st).1.loadedPolicy = true ∧
    (policyPhase fs target path st).1.lastPolicyDir = path := by
  unfold policyPhase
  split
  case isTrue h =>
    rcases hpi : attemptPolicyImport fs path with e | p
    · rcases e with _ | _ | _ <;> exact ⟨rfl, rfl⟩
    · exact ⟨rfl, rfl⟩
  case isFalse h =>
    push_neg at h
    exact ⟨by simpa using h.1, h.2⟩

/-- A call of `performTrial` that passes argument validation leaves the
cache flags recording the supplied path. -/
theorem performTrial_flags (fs : FileSys) (stream : ℕ → ℚ) (fuel : ℕ)
    (target : ℤ) (path : String) (erdaFragLim : ℤ) (st : HexaStatFramework)
    (hT : target ≤ 10) (hL : 0 ≤ erdaFragLim) :
    (performTrial fs stream fuel target path erdaFragLim st).1.loadedPolicy = true ∧
    (performTrial fs stream fuel target path erdaFragLim st).1.lastPolicyDir = path := by
  unfold performTrial
  rw [if_neg (by omega), if_neg (by omega)]
  obtain ⟨hf1, hf2⟩ := policyPhase_flags fs target path st
  rcases hpp : policyPhase fs target path st with ⟨st1, oe⟩
  rw [hpp] at hf1 hf2
  rcases oe with _ | e
  · dsimp only
    rcases hlp : hexaLoop stream st1.policy target erdaFragLim
        (decide (erdaFragLim = 0)) fuel
        { core := {}, rngIx := st.rngIx, totCost := 0, totResets := 0,
          numEnhances := 0 } with _ | p
    · exact ⟨hf1, hf2⟩
    · rcases p with ⟨ls, oe2⟩
      rcases oe2 with _ | e2
      · exact ⟨hf1, hf2⟩
      · exact ⟨hf1, hf2⟩
  · dsimp only
    exact ⟨hf1, hf2⟩

/-- When the policy cache already covers the supplied path, `performTrial`
leaves the policy table untouched, whatever else happens in the call. -/
theorem performTrial_policy_frame (fs : FileSys) (stream : ℕ → ℚ) (fuel : ℕ)
    (target : ℤ) (path : String) (erdaFragLim : ℤ) (st : HexaStatFramework)
    (h1 : st.loadedPolicy = true) (h2 : st.lastPolicyDir = path) :
    (performTrial fs stream fuel target path erdaFragLim st).1.policy = st.policy := by
  unfold performTrial
  by_cases hT : 10 < target
  · rw [if_pos hT]
  · rw [if_neg hT]
    by_cases hL : erdaFragLim < 0
    · rw [if_pos hL]
    · rw [if_neg hL]
      rw [policyPhase_skip fs target path st h1 h2]
      dsimp only
      rcases hlp : hexaLoop stream st.policy target erdaFragLim
          (decide (erdaFragLim = 0)) fuel
          { core := {}, rngIx := st.rngIx, totCost := 0, totResets := 0,
            numEnhances := 0 } with _ | p
      · rfl
      · rcases p with ⟨ls, oe2⟩
        rcases oe2 with _ | e2 <;> rfl

/-- With an unlimited budget, target 1, and a policy that never resets below
the cap, each loop iteration from a well-formed core below the cap is an
enhancement; after exactly `k = 20 − level` iterations the loop returns
normally having consumed `k` draws and counted `k` enhancements and no
resets. -/
theorem hexaLoop_enhance (stream : ℕ → ℚ) (policy : Policy)
    (hstr : ∀ i, 0 ≤ stream i ∧ stream i < 1)
    (hpol : ∀ l p, l < 20 → polLookup policy (l, p) = false) :
    ∀ (k fuel : ℕ) (ls : HexaLoopState), coreWF ls.core →
      ls.core.nodeLevel + k = 20 → k + 1 ≤ fuel →
      ∃ c2 cost2, hexaLoop stream policy 1 0 true fuel ls
          = some ({ core := c2, rngIx := ls.rngIx + k, totCost := cost2,
                    totResets := ls.totResets,
                    numEnhances := ls.numEnhances + k }, none)
        ∧ coreWF c2 ∧ c2.nodeLevel = 20 := by
  intro k
  induction k with
  | zero =>
    intro fuel ls hwf hlvl hf
    obtain ⟨f1, rfl⟩ : ∃ m, fuel = m + 1 := ⟨fuel - 1, by omega⟩
    obtain ⟨hs1a, hs1b, hs2a, hs2b, hs3a, hs3b, hsum, hl1, hl2⟩ := hwf
    refine ⟨ls.core, ls.totCost, ?_, ?_, by omega⟩
    · simp only [hexaLoop]
      rw [if_neg (by push_neg; exact ⟨by omega, by omega⟩)]
      rfl
    · exact ⟨hs1a, hs1b, hs2a, hs2b, hs3a, hs3b, hsum, hl1, hl2⟩
  | succ m ih =>
    intro fuel ls hwf hlvl hf
    obtain ⟨f1, rfl⟩ : ∃ n, fuel = n + 1 := ⟨fuel - 1, by omega⟩
    simp only [hexaLoop]
    rw [if_pos (Or.inl (by omega))]
    rw [if_neg (by simp)]
    rw [if_neg (by simp [hpol ls.core.nodeLevel ls.core.s1 (by omega)])]
    obtain ⟨c2, cost, hln, hwf2, hlvl2, _, _⟩ :=
      levelNode_step ls.core (stream ls.rngIx) hwf (by omega)
        (hstr ls.rngIx).1 (hstr ls.rngIx).2
    rw [hln]
    dsimp only
    obtain ⟨c3, cost3, hit, hwf3, hlvl3⟩ := ih f1
      { core := c2, rngIx := ls.rngIx + 1, totCost := ls.totCost + cost.2,
        totResets := ls.totResets, numEnhances := ls.numEnhances + 1 }
      hwf2 (by dsimp only; omega) (by omega)
    dsimp only at hit
    refine ⟨c3, cost3, ?_, hwf3, hlvl3⟩
    rw [show ls.rngIx + (m + 1) = ls.rngIx + 1 + m from by omega,
        show ls.numEnhances + (m + 1) = ls.numEnhances + 1 + m from by omega]
    exact hit

/-- C9: `performTrial` rejects a target primary level above 10 or a negative
fragment budget before anything else happens: it fails with the ValueError
and the engine state — policy table, cache flags and random-stream cursor —
is returned exactly unchanged, so no randomness is consumed and no trial
state survives. -/
theorem claim_C9_validation (fs : FileSys) (stream : ℕ → ℚ) (fuel : ℕ)
    (target : ℤ) (path : String) (erdaFragLim : ℤ) (st : HexaStatFramework)
    (h : 10 < target ∨ erdaFragLim < 0) :
    performTrial fs stream fuel target path erdaFragLim st
      = (st, some (.error .valueError)) := by
  unfold performTrial
  rcases h with h | h
  · rw [if_pos h]
  · by_cases h10 : 10 < target
    · rw [if_pos h10]
    · rw [if_neg h10, if_pos h]

/-- Witness for C9: a target of 11 is rejected with the state unchanged. -/
theorem claim_C9_witness :
    performTrial (fun _ => none) (fun _ => 0) 3 11 "p" 0 {}
      = ({}, some (.error .valueError)) :=
  claim_C9_validation (fun _ => none) (fun _ => 0) 3 11 "p" 0 {}
    (Or.inl (by norm_num))

/-- C10: the policy is cached across trials.  After any `performTrial` call
that passes validation, the cache flags record the call's path; a second
call on the resulting state with the same path — whatever its target,
budget, stream or file system — skips the import/synthesis step entirely
(the policy phase is the identity) and leaves the policy table unchanged. -/
theorem claim_C10_policy_cache (fs fs' : FileSys) (stream stream' : ℕ → ℚ)
    (fuel fuel' : ℕ) (target target' lim lim' : ℤ) (path : String)
    (st : HexaStatFramework) (hT : target ≤ 10) (hL : 0 ≤ lim) :
    ((performTrial fs stream fuel target path lim st).1.loadedPolicy = true ∧
     (performTrial fs stream fuel target path lim st).1.lastPolicyDir = path) ∧
    policyPhase fs' target' path (performTrial fs stream fuel target path lim st).1
      = ((performTrial fs stream fuel target path lim st).1, none) ∧
    (performTrial fs' stream' fuel' target' path lim'
        (performTrial fs stream fuel target path lim st).1).1.policy
      = (performTrial fs stream fuel target path lim st).1.policy := by
  obtain ⟨hf1, hf2⟩ := performTrial_flags fs stream fuel target path lim st hT hL
  exact ⟨⟨hf1, hf2⟩,
    policyPhase_skip fs' target' path _ hf1 hf2,
    performTrial_policy_frame fs' stream' fuel' target' path lim' _ hf1 hf2⟩

/-- Witness for C10: two successive calls, same path "p", targets 1 then 2:
the second call's policy phase is the identity and the policy survives. -/
theorem claim_C10_witness :
    (performTrial (fun _ => none) (fun _ => 0) 25 2 "p" 0
        (performTrial (fun _ => none) (fun _ => 0) 25 1 "p" 0 {}).1).1.policy
      = (performTrial (fun _ => none) (fun _ => 0) 25 1 "p" 0 {}).1.policy :=
  (claim_C10_policy_cache (fun _ => none) (fun _ => none) (fun _ => 0) (fun _ => 0)
    25 25 1 2 0 0 "p" {} (by norm_num) (by norm_num)).2.2

/-- C3 counterexample: with a file system holding a non-mapping value at
the policy path, `performTrial` does not recover — the TypeError propagates
out of the call instead of falling back to the synthesized default
policy. -/
theorem claim_C3_cex :
    (performTrial (fun _ => some PickleVal.nondict) (fun _ => 0) 5 1 "p" 0 {}).2
      = some (.error .typeError) := by
  rfl

/-- C3 (amended): a missing policy path fails with the (recoverable)
re-raised RuntimeError and the caller falls back to the synthesized default
policy — the call proceeds exactly as if that default had been installed
beforehand; but a present, non-mapping-shaped value raises TypeError, which
is not caught: it propagates out of `performTrial` with no fallback. -/
theorem claim_C3_policy_load (fs : FileSys) (stream : ℕ → ℚ) (fuel : ℕ)
    (target lim : ℤ) (path : String) (st : HexaStatFramework)
    (htrig : st.loadedPolicy = false ∨ st.lastPolicyDir ≠ path) :
    (fs path = none →
      policyPhase fs target path st =
        ({ st with loadedPolicy := true, lastPolicyDir := path,
                   policy := updatePolicyTarget st.policy target }, none)) ∧
    (fs path = none → target ≤ 10 → 0 ≤ lim →
      performTrial fs stream fuel target path lim st =
        performTrial fs stream fuel target path lim
          { st with loadedPolicy := true, lastPolicyDir := path,
                    policy := updatePolicyTarget st.policy target }) ∧
    (fs path = some .nondict → target ≤ 10 → 0 ≤ lim →
      (performTrial fs stream fuel target path lim st).2
        = some (.error .typeError)) := by
  refine ⟨?_, ?_, ?_⟩
  · intro hfs
    unfold policyPhase
    rw [if_pos htrig]
    unfold attemptPolicyImport
    rw [hfs]
  · intro hfs hT hL
    unfold performTrial
    have hT2 : ¬ 10 < target := by omega
    have hL2 : ¬ lim < 0 := by omega
    simp only [if_neg hT2, if_neg hL2]
    have hleft : policyPhase fs target path st =
        ({ st with loadedPolicy := true, lastPolicyDir := path,
                   policy := updatePolicyTarget st.policy target }, none) := by
      unfold policyPhase
      rw [if_pos htrig]
      unfold attemptPolicyImport
      rw [hfs]
    have hright : policyPhase fs target path
        { st with loadedPolicy := true, lastPolicyDir := path,
                  policy := updatePolicyTarget st.policy target } =
        ({ st with loadedPolicy := true, lastPolicyDir := path,
                   policy := updatePolicyTarget st.policy target }, none) :=
      policyPhase_skip fs target path _ rfl rfl
    rw [hleft, hright]
  · intro hfs hT hL
    unfold performTrial
    rw [if_neg (by omega), if_neg (by omega)]
    have hpp : policyPhase fs target path st =
        ({ st with loadedPolicy := true, lastPolicyDir := path },
         some .typeError) := by
      unfold policyPhase
      rw [if_pos htrig]
      unfold attemptPolicyImport
      rw [hfs]
    rw [hpp]

/-- Witness for C3: with an empty file system (missing path) the policy
phase installs the synthesized default; with a non-mapping value the
TypeError escapes the call. -/
theorem claim_C3_witness :
    policyPhase (fun _ => none) 1 "p" ({} : HexaStatFramework) =
      ({ loadedPolicy := true, lastPolicyDir := "p", policy := [], rngIx := 0 },
       none) ∧
    (performTrial (fun _ => some PickleVal.nondict) (fun _ => 0) 5 1 "p" 0
        ({} : HexaStatFramework)).2 = some (.error .typeError) := by
  constructor
  · exact (claim_C3_policy_load (fun _ => none) (fun _ => 0) 5 1 0 "p" {}
      (Or.inl rfl)).1 rfl
  · exact (claim_C3_policy_load (fun _ => some PickleVal.nondict) (fun _ => 0) 5 1 0
      "p" {} (Or.inl rfl)).2.2 rfl (by norm_num) (by norm_num)

/-- C4 counterexample: a policy table that orders a reset at the initial
state (node level 1, primary level 1) makes `performTrial` with target 1
and unlimited budget raise the reset-too-early RuntimeError on its first
iteration, for any stream — the result is an error, not a
0-reset/19-enhancement record, so the behaviour is not independent of the
policy content. -/
theorem claim_C4_cex :
    (performTrial (fun _ => none) (fun _ => 0) 25 1 "p" 0
        { loadedPolicy := true, lastPolicyDir := "p", policy := [((1, 1), true)],
          rngIx := 0 }).2 = some (.error .runtimeError) := by
  rfl

/-- C4 (amended): for every randomness stream with draws in [0, 1) and
every cached policy that decides a reset at no state with node level below
20 (the synthesized default for target 1 is such a policy), `performTrial`
with target 1 and fragment limit 0 terminates normally with reset count 0
and enhancement count exactly 19, consuming exactly 19 draws. -/
theorem claim_C4_target_one (fs : FileSys) (stream : ℕ → ℚ) (fuel : ℕ)
    (path : String) (st : HexaStatFramework)
    (hstr : ∀ i, 0 ≤ stream i ∧ stream i < 1)
    (hload : st.loadedPolicy = true) (hdir : st.lastPolicyDir = path)
    (hpol : ∀ l p, l < 20 → polLookup st.policy (l, p) = false)
    (hfuel : 20 ≤ fuel) :
    ((performTrial fs stream fuel 1 path 0 st).2.map
        (Except.map fun r => (r.numResets, r.totalEnhances))) = some (.ok (0, 19)) ∧
    (performTrial fs stream fuel 1 path 0 st).1 = { st with rngIx := st.rngIx + 19 } := by
  have hinit : coreWF ({} : HexaStatCore) :=
    ⟨by norm_num, by norm_num, by norm_num, by norm_num, by norm_num, by norm_num,
     rfl, by norm_num, by norm_num⟩
  obtain ⟨c2, cost2, hloop, hwf2, hl2⟩ := hexaLoop_enhance stream st.policy hstr hpol
    19 fuel
    { core := {}, rngIx := st.rngIx, totCost := 0, totResets := 0, numEnhances := 0 }
    hinit (by norm_num) (by omega)
  dsimp only at hloop
  unfold performTrial
  rw [if_neg (by norm_num), if_neg (by norm_num)]
  rw [policyPhase_skip fs 1 path st hload hdir]
  dsimp only
  rw [show (decide ((0 : ℤ) = 0)) = true from rfl]
  rw [hloop]
  exact ⟨rfl, rfl⟩

/-- Witness for C4: the empty (all-default) policy with the all-zero
stream: 0 resets and exactly 19 enhancements. -/
theorem claim_C4_witness :
    ((performTrial (fun _ => none) (fun _ => 0) 25 1 "p" 0
        { loadedPolicy := true, lastPolicyDir := "p", policy := [],
          rngIx := 0 }).2.map
        (Except.map fun r => (r.numResets, r.totalEnhances))) = some (.ok (0, 19)) :=
  (claim_C4_target_one (fun _ => none) (fun _ => 0) 25 "p"
    { loadedPolicy := true, lastPolicyDir := "p", policy := [], rngIx := 0 }
    (fun _ => ⟨le_refl 0, by norm_num⟩) rfl rfl (fun _ _ _ => rfl)
    (by norm_num)).1

end MSim
